import Mathlib

/-!
# Verification of the WeensyOS-style kernel (`kernel.cc`)

A shallow embedding of the kernel's physical frame allocator, page-table
bookkeeping, process loader, fork engine, page-allocation system call and
round-robin scheduler, together with proofs and refutations of the frozen
claims about the specification.

Physical memory is modelled at page granularity: `mem pa off` is the
contents of the page whose physical address is `pa` at offset `off`.
Offset `0` doubles as the slot holding the intrusive free-list link word
(the source threads the list through the first machine word of each free
frame); the link value is stored whole at offset `0` rather than as eight
separate bytes, a harmless coarsening since no execution path modelled here
reads a link as bytes or bytes as a link.
-/

namespace Weensy

/-- Page size in bytes (x86-64 `PAGESIZE`). -/
def PAGESIZE : Nat := 4096

/-- Number of physical pages (`NPAGES = MEMSIZE_PHYSICAL / PAGESIZE`);
the platform header fixes `MEMSIZE_PHYSICAL = 0x200000`. -/
def NPAGES : Nat := 512

/-- Physical memory size (`MEMSIZE_PHYSICAL = 0x200000`). -/
def MEMSIZE_PHYSICAL : Nat := 0x200000

/-- First process-owned address (`PROC_START_ADDR = 0x100000`, per the
memory-layout diagram at the top of `kernel.cc`). -/
def PROC_START_ADDR : Nat := 0x100000

/-- Top of per-process virtual memory (`MEMSIZE_VIRTUAL = 0x300000`). -/
def MEMSIZE_VIRTUAL : Nat := 0x300000

/-- Physical/virtual address of the CGA console page (`CONSOLE_ADDR`). -/
def CONSOLE_ADDR : Nat := 0xB8000

/-- Capacity of the process table (`PID_MAX`). -/
def PID_MAX : Nat := 16

/-- Page-table permission bit: present (`PTE_P`). -/
def PTE_P : Nat := 1

/-- Page-table permission bit: writable (`PTE_W`). -/
def PTE_W : Nat := 2

/-- Page-table permission bit: user-accessible (`PTE_U`). -/
def PTE_U : Nat := 4

/-- State of the frame allocator: the global `free_list_head`, the page
contents `mem` (offset `0` of a free page holds the intrusive link word)
and the `physpages[].refcount` array, indexed by page number. -/
structure AllocState where
  free_list_head : Nat
  mem : Nat → Nat → Nat
  refcount : Nat → Nat

/-- `memset(pa, 0, PAGESIZE)`: zero one whole page. -/
def memsetPage (pa : Nat) (st : AllocState) : AllocState :=
  { st with mem := fun p off => if p = pa then 0 else st.mem p off }

/-- Store `v` in the first word of the page at `pa` (`*(uintptr_t*)pa = v`). -/
def storeLink (pa v : Nat) (st : AllocState) : AllocState :=
  { st with mem := fun p off => if p = pa ∧ off = 0 then v else st.mem p off }

/-- Set the reference count of the page containing `pa` to `n`. -/
def setRefcount (pa n : Nat) (st : AllocState) : AllocState :=
  { st with refcount := fun i => if i = pa / PAGESIZE then n else st.refcount i }

/-- `++physpages[pa / PAGESIZE].refcount`. -/
def incRefcount (pa : Nat) (st : AllocState) : AllocState :=
  { st with refcount := fun i =>
      if i = pa / PAGESIZE then st.refcount i + 1 else st.refcount i }

/-- `kalloc(sz)` from `kernel.cc`: refuses requests larger than a page,
fails when the free list is empty, otherwise pops the head of the free
list, zero-fills it and sets its reference count to 1.  Returns the
allocated physical address (or `none`) together with the resulting
allocator state (unchanged on failure, as in the source where the function
returns before mutating anything). -/
def kalloc (sz : Nat) (st : AllocState) : Option Nat × AllocState :=
  if sz > PAGESIZE then
    (none, st)
  else if st.free_list_head = 0 then
    (none, st)
  else
    let pa := st.free_list_head
    let st1 : AllocState := { st with free_list_head := st.mem pa 0 }
    let st2 := memsetPage pa st1
    let st3 := setRefcount pa 1 st2
    (some pa, st3)

/-- `kfree(kptr)` from `kernel.cc`: no-op on the null pointer; asserts
(modelled as `none`, i.e. a fatal kernel assertion) that the address is
page-aligned, that its page number is within `NPAGES` and that its
reference count is positive; then decrements the count, and when the count
reaches zero links the page onto the free list (`*pa = head; head = pa`)
and only afterwards zero-fills it — exactly the order of the source. -/
def kfree (kptr : Nat) (st : AllocState) : Option AllocState :=
  if kptr = 0 then
    some st
  else if kptr % PAGESIZE ≠ 0 then none
  else if ¬ kptr / PAGESIZE < NPAGES then none
  else if st.refcount (kptr / PAGESIZE) = 0 then none
  else if st.refcount (kptr / PAGESIZE) - 1 = 0 then
    -- after the decrement the count is zero: link the page onto the free
    -- list and only then zero-fill it, exactly as the source does
    some (memsetPage kptr
      { storeLink kptr st.free_list_head
          (setRefcount kptr (st.refcount (kptr / PAGESIZE) - 1) st) with
        free_list_head := kptr })
  else
    some (setRefcount kptr (st.refcount (kptr / PAGESIZE) - 1) st)

/-- The frames reachable from a free-list head by chasing link words,
bounded by `fuel` (the physical page count bounds any acyclic chain). -/
def freeChain (mem : Nat → Nat → Nat) : Nat → Nat → List Nat
  | 0, _ => []
  | fuel + 1, h => if h = 0 then [] else h :: freeChain mem fuel (mem h 0)

/-- Number of frames reachable from the free list. -/
def freeCount (st : AllocState) : Nat :=
  (freeChain st.mem NPAGES st.free_list_head).length

/-- `chainRep mem h l`: the free list headed at `h` is exactly the frame
list `l` (each frame's link word names its successor, the last links to 0). -/
def chainRep (mem : Nat → Nat → Nat) : Nat → List Nat → Prop
  | h, [] => h = 0
  | h, a :: l => h = a ∧ a ≠ 0 ∧ chainRep mem (mem a 0) l

instance chainRep.decidable (mem : Nat → Nat → Nat) :
    (h : Nat) → (l : List Nat) → Decidable (chainRep mem h l)
  | _h, [] => inferInstanceAs (Decidable (_h = 0))
  | _h, a :: l =>
    have := chainRep.decidable mem (mem a 0) l
    inferInstanceAs (Decidable (_ ∧ _ ∧ _))

/-- Well-formedness of an allocator state: some frame list represents the
free list, without duplicates, and every listed frame is a nonzero
page-aligned address of a valid page whose reference count is zero. -/
def AllocInv (st : AllocState) : Prop :=
  ∃ l : List Nat, chainRep st.mem st.free_list_head l ∧ l.Nodup ∧
    ∀ a ∈ l, a ≠ 0 ∧ a % PAGESIZE = 0 ∧ a / PAGESIZE < NPAGES ∧
      st.refcount (a / PAGESIZE) = 0

/-- One step of the free-list construction in `initialize_memory`:
`*(uintptr_t*)addr = free_list_head; free_list_head = addr;` preceded by
`physpages[addr / PAGESIZE].refcount = 0`. -/
def initStep (st : AllocState) (addr : Nat) : AllocState :=
  let st1 := setRefcount addr 0 st
  let st2 := storeLink addr st1.free_list_head st1
  { st2 with free_list_head := addr }

/-- The page addresses `initialize_memory` places on the free list: every
page-aligned `addr < MEMSIZE_PHYSICAL` with `addr ≥ PROC_START_ADDR` and
`addr ≠ CONSOLE_ADDR`, in ascending order. -/
def freePageAddrs : List Nat :=
  ((List.range NPAGES).map (· * PAGESIZE)).filter
    (fun a => PROC_START_ADDR ≤ a ∧ a ≠ CONSOLE_ADDR)

/-- The allocator state at the end of `initialize_memory`: globals start
zeroed (`free_list_head = 0`, all reference counts 0) and the boot loop
threads every allocatable page onto the free list. -/
def initState : AllocState :=
  freePageAddrs.foldl initStep ⟨0, fun _ _ => 0, fun _ => 0⟩

/-- An operation on the frame allocator. -/
inductive AOp where
  | alloc (sz : Nat)
  | free (pa : Nat)

/-- Run one allocator operation; `none` models a fatal assertion inside
`kfree`. A failed `kalloc` just returns the unchanged state. -/
def runOp (st : AllocState) : AOp → Option AllocState
  | .alloc sz => some (kalloc sz st).2
  | .free pa => kfree pa st

/-- Run a sequence of allocator operations. -/
def runOps : List AOp → AllocState → Option AllocState
  | [], st => some st
  | op :: ops, st => (runOp st op).bind (runOps ops)

/-! ## Page tables and processes

The x86-64 four-level page-table tree and the `vmiter`/`ptiter` cursors
live in support headers outside the kernel source proper, so the
translation map is flattened.  Modelled from the spec: `map` "installs a
mapping, allocating intermediate page-table levels from the Frame
Allocator as needed" and may fail; the possibility of failure (exhaustion
while allocating an intermediate level) is abstracted into a `mapOk`
oracle, and an address space owns no separately modelled intermediate
frames (the spec's `teardown` phase over intermediate levels is therefore
empty here). -/

/-- A flattened page table: page-aligned virtual address ↦ physical
address and permission bits. -/
def PTab : Type := Nat → Option (Nat × Nat)

/-- The empty page table (`kalloc_pagetable` returns a table with no
mappings). -/
def emptyPT : PTab := fun _ => none

/-- Modelled from the spec: `vmiter::try_map(pa, perm)` installs the
mapping `va ↦ (pa, perm)`; the `mapOk` oracle abstracts failure to
allocate an intermediate page-table level. -/
def try_map (mapOk : Nat → Bool) (pt : PTab) (va pa perm : Nat) : Option PTab :=
  if mapOk va then
    some (fun v => if v = va then some (pa, perm) else pt v)
  else
    none

/-- `vmiter::present()` for an entry. -/
def entryPresent (e : Option (Nat × Nat)) : Prop :=
  ∃ pa perm, e = some (pa, perm) ∧ perm &&& PTE_P ≠ 0

/-- The page-aligned virtual addresses of the user region
`[PROC_START_ADDR, MEMSIZE_VIRTUAL)`, in ascending order. -/
def userVAs : List Nat :=
  (List.range ((MEMSIZE_VIRTUAL - PROC_START_ADDR) / PAGESIZE)).map
    (fun k => PROC_START_ADDR + k * PAGESIZE)

/-- The page-aligned virtual addresses of the kernel region
`[0, PROC_START_ADDR)`, in ascending order. -/
def kernelVAs : List Nat :=
  (List.range (PROC_START_ADDR / PAGESIZE)).map (fun k => k * PAGESIZE)

/-- Modelled from the spec: `kalloc_pagetable()` allocates one zeroed
frame for the root of a page-table tree via the Frame Allocator; the
flattened table starts with no mappings. -/
def kalloc_pagetable (st : AllocState) : Option Nat × AllocState :=
  kalloc PAGESIZE st

/-- Process states (`P_FREE`, `P_RUNNABLE`, `P_FAULTED`). -/
inductive PState where
  | free
  | runnable
  | faulted
deriving DecidableEq

/-- A saved register file: the return-value register `rax`, instruction
pointer, stack pointer, and the remaining general-purpose registers. -/
structure Regs where
  rax : Nat
  rip : Nat
  rsp : Nat
  gp : Nat → Nat

/-- A process descriptor (`struct proc`): state, saved registers, and the
root of its address space when it has one. -/
structure Proc where
  state : PState
  regs : Regs
  pagetable : Option (Nat × PTab)

/-- `initialize_process_table()` leaves every slot `P_FREE` with no page
table; registers are zero-initialized static storage. -/
def freeProc : Proc :=
  ⟨.free, ⟨0, 0, 0, fun _ => 0⟩, none⟩

/-- The fork slot search: the first `i` with `1 ≤ i < PID_MAX` and
`ptable[i].state == P_FREE` (the loop in `syscall_fork` skips pid 0). -/
def findFreeSlot (ptable : Nat → Proc) : Option Nat :=
  (List.range' 1 (PID_MAX - 1)).find? (fun i => (ptable i).state = .free)

/-- Copy the kernel mappings `[0, PROC_START_ADDR)` from `kernelPT` into
`pt`, as both `process_setup` and `syscall_fork` do: every present source
mapping is re-installed verbatim with `try_map`; a mapping failure aborts
(`none`). -/
def copyKernelMappings (mapOk : Nat → Bool) (kernelPT : PTab) : PTab → Option PTab :=
  go kernelVAs
where
  /-- Walk the kernel-region page addresses in order. -/
  go : List Nat → PTab → Option PTab
    | [], pt => some pt
    | va :: rest, pt =>
      match kernelPT va with
      | none => go rest pt
      | some (pa, perm) =>
        if perm &&& PTE_P ≠ 0 then
          match try_map mapOk pt va pa perm with
          | none => none
          | some pt' => go rest pt'
        else
          go rest pt

/-! ## Process loader (`process_setup`) and teardown (`cleanup_pagetable`) -/

/-- One segment of a program image: virtual start address, total size,
initialized-data size, writable flag, and the raw image bytes. -/
structure Segment where
  va : Nat
  size : Nat
  data_size : Nat
  writable : Bool
  data : Nat → Nat

/-- The page addresses visited by
`for (a = round_down(va, PAGESIZE); a < va + size; a += PAGESIZE)`. -/
def segPages (va size : Nat) : List Nat :=
  let start := va - va % PAGESIZE
  (List.range ((va + size - start + PAGESIZE - 1) / PAGESIZE)).map
    (fun k => start + k * PAGESIZE)

/-- The segment-mapping loop of `process_setup`: for each page of the
segment, allocate a zeroed frame and map it; writable segments get
`PTE_P|PTE_W|PTE_U`, read-only segments get `PTE_P|PTE_U` and additionally
increment the frame's reference count (on top of the count of 1 that
`kalloc` already set).  An allocation failure is a failed `assert`
(`none`); so is a mapping failure. -/
def mapSegment (mapOk : Nat → Bool) (seg : Segment) :
    List Nat → PTab → AllocState → Option (PTab × AllocState)
  | [], pt, st => some (pt, st)
  | a :: rest, pt, st =>
    if seg.writable then
      match kalloc PAGESIZE st with
      | (none, _) => none
      | (some pg, st1) =>
        let st2 := memsetPage pg st1
        match try_map mapOk pt a pg (PTE_P ||| PTE_W ||| PTE_U) with
        | none => none
        | some pt' => mapSegment mapOk seg rest pt' st2
    else
      match kalloc PAGESIZE st with
      | (none, _) => none
      | (some pg, st1) =>
        let st2 := memsetPage pg st1
        match try_map mapOk pt a pg (PTE_P ||| PTE_U) with
        | none => none
        | some pt' => mapSegment mapOk seg rest pt' (incRefcount pg st2)

/-- Map every segment of the image in order. -/
def mapSegments (mapOk : Nat → Bool) :
    List Segment → PTab → AllocState → Option (PTab × AllocState)
  | [], pt, st => some (pt, st)
  | seg :: rest, pt, st =>
    match mapSegment mapOk seg (segPages seg.va seg.size) pt st with
    | none => none
    | some (pt', st') => mapSegments mapOk rest pt' st'

/-- The copy loop of `process_setup` for one segment: `s` is the running
offset of `start_ptr` into the image data; for each page the code copies
`copy_size = (a + PAGESIZE <= va + data_size) ? PAGESIZE : data_size %
PAGESIZE` bytes from `start_ptr` to the *start* of the backing physical
page, then advances `start_ptr` by `copy_size`. -/
def copySegPages (seg : Segment) (pt : PTab) :
    List Nat → Nat → AllocState → Option AllocState
  | [], _, st => some st
  | a :: rest, s, st =>
    match pt a with
    | none => none
    | some (pg, _) =>
      let cs := if a + PAGESIZE ≤ seg.va + seg.data_size then PAGESIZE
                else seg.data_size % PAGESIZE
      let st' : AllocState :=
        { st with mem := fun p off =>
            if p = pg ∧ off < cs then seg.data (s + off) else st.mem p off }
      copySegPages seg pt rest (s + cs) st'

/-- Run the copy loop over every segment (each with `start_ptr` reset to
the beginning of that segment's data). -/
def copySegments (pt : PTab) : List Segment → AllocState → Option AllocState
  | [], st => some st
  | seg :: rest, st =>
    match copySegPages seg pt (segPages seg.va seg.size) 0 st with
    | none => none
    | some st' => copySegments pt rest st'

/-- `process_setup(pid, program_name)`: allocate a fresh page-table root,
copy the kernel mappings, allocate-and-map every segment page, copy the
segment data, set the entry point, allocate and map one stack page at
`MEMSIZE_VIRTUAL - PAGESIZE`, and mark the process runnable.  Every
allocation or mapping failure inside this routine is a failed `assert`
(`none`). -/
def process_setup (mapOk : Nat → Bool) (kernelPT : PTab) (pgm : List Segment)
    (entry : Nat) (st : AllocState) : Option (Proc × AllocState) :=
  match kalloc_pagetable st with
  | (none, _) => none
  | (some root, st1) =>
    match copyKernelMappings mapOk kernelPT emptyPT with
    | none => none
    | some pt0 =>
      match mapSegments mapOk pgm pt0 st1 with
      | none => none
      | some (pt1, st2) =>
        match copySegments pt1 pgm st2 with
        | none => none
        | some st3 =>
          let stack_addr := MEMSIZE_VIRTUAL - PAGESIZE
          match kalloc PAGESIZE st3 with
          | (none, _) => none
          | (some spg, st4) =>
            let st5 := memsetPage spg st4
            match try_map mapOk pt1 stack_addr spg (PTE_P ||| PTE_W ||| PTE_U) with
            | none => none
            | some pt2 =>
              some ({ state := .runnable,
                      regs := { rax := 0, rip := entry,
                                rsp := stack_addr + PAGESIZE, gp := fun _ => 0 },
                      pagetable := some (root, pt2) }, st5)

/-- Phase one of `cleanup_pagetable`: `kfree` the backing frame of every
present, user-accessible mapping in the user region other than the
console page. -/
def cleanupUser (pt : PTab) : List Nat → AllocState → Option AllocState
  | [], st => some st
  | va :: rest, st =>
    match pt va with
    | none => cleanupUser pt rest st
    | some (pa, perm) =>
      if perm &&& PTE_P ≠ 0 ∧ perm &&& PTE_U ≠ 0 ∧ va ≠ CONSOLE_ADDR then
        (kfree pa st).bind (cleanupUser pt rest)
      else
        cleanupUser pt rest st

/-- `cleanup_pagetable(pagetable)`: free every user frame, then every
intermediate page-table frame (the flattened model owns none — see the
module comment), then the root frame. -/
def cleanup_pagetable (root : Nat) (pt : PTab) (st : AllocState) : Option AllocState :=
  (cleanupUser pt userVAs st).bind (kfree root)

/-- `sys_exit()`: tear down the current process's address space and mark
its slot `P_FREE`. -/
def sys_exit (ptable : Nat → Proc) (cur : Nat) (st : AllocState) :
    Option ((Nat → Proc) × AllocState) :=
  match (ptable cur).pagetable with
  | none => none
  | some (root, pt) =>
    (cleanup_pagetable root pt st).map (fun st' =>
      (fun i => if i = cur then { ptable cur with state := .free } else ptable i,
       st'))

/-! ## `syscall_page_alloc` -/

/-- `syscall_page_alloc(addr)`: reject a misaligned or out-of-user-region
address outright, then allocate a frame (failing with -1 if none is
available), zero it (again) and map it writable + user at `addr`; if the
mapping fails, release the frame and return -1.  Returns the syscall
result together with the resulting page table and allocator state. -/
def syscall_page_alloc (mapOk : Nat → Bool) (pt : PTab) (st : AllocState)
    (addr : Nat) : Int × PTab × AllocState :=
  if addr % PAGESIZE ≠ 0 ∨ addr < PROC_START_ADDR ∨ MEMSIZE_VIRTUAL ≤ addr then
    (-1, pt, st)
  else
    match kalloc PAGESIZE st with
    | (none, st') => (-1, pt, st')
    | (some pg, st1) =>
      let st2 := memsetPage pg st1
      match try_map mapOk pt addr pg (PTE_P ||| PTE_W ||| PTE_U) with
      | none => (-1, pt, (kfree pg st2).getD st2)
      | some pt' => (0, pt', st2)

/-! ## `syscall_fork` -/

/-- `memcpy(new_page, (void*)src.pa(), PAGESIZE)`: copy one whole page. -/
def memcpyPage (dst src : Nat) (st : AllocState) : AllocState :=
  { st with mem := fun p off => if p = dst then st.mem src off else st.mem p off }

/-- The user-region copy loop of `syscall_fork`: walk the parent's
mappings from `PROC_START_ADDR` to `MEMSIZE_VIRTUAL`; skip absent pages;
share present read-only user pages (same frame, same permissions, one
reference-count increment); eagerly duplicate present writable user pages
into freshly allocated frames.  `none` models the failure paths on which
the source tears the partial child down and returns -1 (the torn-down
state itself is not modelled). -/
def forkCopyUser (mapOk : Nat → Bool) (parentPT : PTab) :
    List Nat → PTab → AllocState → Option (PTab × AllocState)
  | [], pt, st => some (pt, st)
  | va :: rest, pt, st =>
    match parentPT va with
    | none => forkCopyUser mapOk parentPT rest pt st
    | some (pa, perm) =>
      if perm &&& PTE_P = 0 then
        forkCopyUser mapOk parentPT rest pt st
      else if perm &&& PTE_W = 0 ∧ perm &&& PTE_U ≠ 0 ∧ va ≠ CONSOLE_ADDR then
        match try_map mapOk pt va pa perm with
        | none => none
        | some pt' => forkCopyUser mapOk parentPT rest pt' (incRefcount pa st)
      else if perm &&& PTE_W ≠ 0 ∧ perm &&& PTE_U ≠ 0 ∧ va ≠ CONSOLE_ADDR then
        match kalloc PAGESIZE st with
        | (none, _) => none
        | (some pg, st1) =>
          let st2 := memcpyPage pg pa st1
          match try_map mapOk pt va pg perm with
          | none => none
          | some pt' => forkCopyUser mapOk parentPT rest pt' st2
      else
        forkCopyUser mapOk parentPT rest pt st

/-- `syscall_fork()`: find the first free slot (pid ≥ 1), allocate a child
page-table root, copy the kernel mappings, duplicate the parent's user
region, then install the child descriptor with the parent's registers
except that the child's `rax` is 0; the parent's return value is the
child's pid.  `some (-1, …)` is a recoverable failure before anything was
built; `none` stands for the later failure paths (partial child torn down,
-1 returned) which no claim depends on. -/
def syscall_fork (mapOk : Nat → Bool) (kernelPT : PTab) (ptable : Nat → Proc)
    (cur : Nat) (st : AllocState) : Option (Int × (Nat → Proc) × AllocState) :=
  match findFreeSlot ptable with
  | none => some (-1, ptable, st)
  | some childPid =>
    match kalloc_pagetable st with
    | (none, _) => some (-1, ptable, st)
    | (some croot, st1) =>
      match copyKernelMappings mapOk kernelPT emptyPT with
      | none => none
      | some pt0 =>
        match (ptable cur).pagetable with
        | none => none
        | some (_, parentPT) =>
          match forkCopyUser mapOk parentPT userVAs pt0 st1 with
          | none => none
          | some (childPT, st2) =>
            let childProc : Proc :=
              { state := .runnable,
                regs := { (ptable cur).regs with rax := 0 },
                pagetable := some (croot, childPT) }
            some ((childPid : Int),
                  fun i => if i = childPid then childProc else ptable i,
                  st2)

/-! ## Scheduler -/

/-- The search loop of `schedule()`: starting from cursor `c`, repeatedly
advance the cursor by one modulo `P` (`last_pid = (last_pid + 1) %
PID_MAX`) and dispatch the first `P_RUNNABLE` process found; `fuel` bounds
the probes (`P` probes per sweep in the source). -/
def schedFind (runnable : Nat → Bool) (P : Nat) : Nat → Nat → Option Nat
  | _, 0 => none
  | c, fuel + 1 =>
    if runnable ((c + 1) % P) then some ((c + 1) % P)
    else schedFind runnable P ((c + 1) % P) fuel

/-- One sweep of `schedule()` over the whole table. When at least one
process is runnable, a single sweep always dispatches. -/
def schedule (runnable : Nat → Bool) (P c : Nat) : Option Nat :=
  schedFind runnable P c P

/-- The cursor (`last_pid`) after `k` consecutive dispatches starting from
cursor `c`; the dispatched pid of the `k`-th dispatch is `cursors … k`
for `k ≥ 1`, since the source leaves `last_pid` at the dispatched pid. -/
def cursors (runnable : Nat → Bool) (P c : Nat) : Nat → Nat
  | 0 => c
  | k + 1 =>
    match schedule runnable P (cursors runnable P c k) with
    | some p => p
    | none => cursors runnable P c k

/-- The number of runnable processes in the table. -/
def runnableCount (runnable : Nat → Bool) (P : Nat) : Nat :=
  ((Finset.range P).filter (fun i => runnable i = true)).card

/-- The frame of a present, user-accessible mapping at `va`, if any. -/
def pageFrame (parentPT : PTab) (va : Nat) : Option Nat :=
  match parentPT va with
  | some (pa, perm) =>
    if perm &&& PTE_P ≠ 0 ∧ perm &&& PTE_U ≠ 0 then some pa else none
  | none => none

/-- The frames of all present user-accessible mappings among `vas`. -/
def userFrames (parentPT : PTab) (vas : List Nat) : List Nat :=
  vas.filterMap (pageFrame parentPT)

/-! ## Concrete states used to evaluate the code on specific inputs -/

/-- Page contents threading a five-frame free list
`0x110000 → 0x111000 → 0x112000 → 0x113000 → 0x114000 → 0`. -/
def demoMem : Nat → Nat → Nat := fun p off =>
  if off = 0 then
    if p = 0x110000 then 0x111000
    else if p = 0x111000 then 0x112000
    else if p = 0x112000 then 0x113000
    else if p = 0x113000 then 0x114000
    else 0
  else 0

/-- Allocator state with five free frames and all reference counts zero. -/
def demoState : AllocState := ⟨0x110000, demoMem, fun _ => 0⟩

/-- Allocator state whose free list holds the single frame `0x101000`,
while the frame `0x102000` is allocated with reference count 1. -/
def oneFrameState : AllocState :=
  ⟨0x101000, fun _ _ => 0, fun i => if i = 0x102 then 1 else 0⟩

/-- A one-page writable segment with no initialized data. -/
def demoSegPlain : Segment := ⟨0x100000, 4096, 0, true, fun _ => 0⟩

/-- A page table with a single user mapping already installed at
`0x100000`. -/
def mappedPT : PTab := fun v =>
  if v = 0x100000 then some (0x105000, 7) else none

/-- A process table whose slot 1 runs a process owning `mappedPT` (one
writable user page) and whose other slots are free. -/
def demoPtable : Nat → Proc := fun i =>
  if i = 1 then ⟨.runnable, ⟨42, 7, 9, fun _ => 0⟩, some (0x105000, mappedPT)⟩
  else freeProc

/-- The result of forking the process in slot 1 of `demoPtable` from the
five-frame allocator state. -/
def demoForkResult : Option (Int × (Nat → Proc) × AllocState) :=
  syscall_fork (fun _ => true) emptyPT demoPtable 1 demoState

/-- The frame list representing `demoState`'s free list. -/
def demoChain : List Nat :=
  [0x110000, 0x111000, 0x112000, 0x113000, 0x114000]

/-- A two-page writable segment with 10 initialized bytes: the BSS
convention demands that bytes 10 … 8191 of its memory stay zero. -/
def demoSegBss : Segment := ⟨0x100000, 8192, 10, true, fun k => k + 1⟩

/-- The cyclic probe distance from cursor `c` to slot `q` in a table of
capacity `P`: the number of other slots the scheduler's cursor passes
before reaching `q` (slot `q` itself is the `cycDist + 1`-st probe). -/
def cycDist (P c q : Nat) : Nat :=
  if c < q then q - c - 1 else q + P - c - 1

/-- How many runnable slots the scheduler's cursor at `c` visits strictly
before reaching slot `q`. -/
def gapCount (runnable : Nat → Bool) (P c q : Nat) : Nat :=
  ((Finset.range P).filter
    (fun r => runnable r = true ∧ cycDist P c r < cycDist P c q)).card

/-! ## Basic update lemmas -/

@[simp]
theorem memsetPage_head (pa : Nat) (st : AllocState) :
    (memsetPage pa st).free_list_head = st.free_list_head := rfl

@[simp]
theorem memsetPage_refcount (pa : Nat) (st : AllocState) :
    (memsetPage pa st).refcount = st.refcount := rfl

theorem memsetPage_mem (pa : Nat) (st : AllocState) (p off : Nat) :
    (memsetPage pa st).mem p off = if p = pa then 0 else st.mem p off := rfl

@[simp]
theorem storeLink_head (pa v : Nat) (st : AllocState) :
    (storeLink pa v st).free_list_head = st.free_list_head := rfl

@[simp]
theorem storeLink_refcount (pa v : Nat) (st : AllocState) :
    (storeLink pa v st).refcount = st.refcount := rfl

@[simp]
theorem setRefcount_head (pa n : Nat) (st : AllocState) :
    (setRefcount pa n st).free_list_head = st.free_list_head := rfl

@[simp]
theorem setRefcount_mem (pa n : Nat) (st : AllocState) :
    (setRefcount pa n st).mem = st.mem := rfl

theorem setRefcount_refcount (pa n : Nat) (st : AllocState) (i : Nat) :
    (setRefcount pa n st).refcount i
      = if i = pa / PAGESIZE then n else st.refcount i := rfl

@[simp]
theorem incRefcount_head (pa : Nat) (st : AllocState) :
    (incRefcount pa st).free_list_head = st.free_list_head := rfl

@[simp]
theorem incRefcount_mem (pa : Nat) (st : AllocState) :
    (incRefcount pa st).mem = st.mem := rfl

theorem incRefcount_refcount (pa : Nat) (st : AllocState) (i : Nat) :
    (incRefcount pa st).refcount i
      = if i = pa / PAGESIZE then st.refcount i + 1 else st.refcount i := rfl

@[simp]
theorem memcpyPage_head (dst src : Nat) (st : AllocState) :
    (memcpyPage dst src st).free_list_head = st.free_list_head := rfl

@[simp]
theorem memcpyPage_refcount (dst src : Nat) (st : AllocState) :
    (memcpyPage dst src st).refcount = st.refcount := rfl

theorem memcpyPage_mem (dst src : Nat) (st : AllocState) (p off : Nat) :
    (memcpyPage dst src st).mem p off
      = if p = dst then st.mem src off else st.mem p off := rfl

/-- Two distinct page-aligned addresses live on distinct pages. -/
theorem aligned_div_ne {x y : Nat} (hx : x % PAGESIZE = 0)
    (hy : y % PAGESIZE = 0) (hne : x ≠ y) : x / PAGESIZE ≠ y / PAGESIZE := by
  intro h
  apply hne
  have hx' := Nat.div_add_mod x PAGESIZE
  have hy' := Nat.div_add_mod y PAGESIZE
  rw [hx] at hx'
  rw [hy] at hy'
  rw [← hx', ← hy', h]

/-- Unfolding of a successful `kalloc`. -/
theorem kalloc_success {sz : Nat} {st : AllocState} {pg : Nat} {st' : AllocState}
    (h : kalloc sz st = (some pg, st')) :
    pg = st.free_list_head ∧ pg ≠ 0 ∧ sz ≤ PAGESIZE ∧
      st' = setRefcount pg 1
        (memsetPage pg { st with free_list_head := st.mem pg 0 }) := by
  unfold kalloc at h
  split at h
  · exact absurd (congrArg Prod.fst h) (by simp)
  · split at h
    · exact absurd (congrArg Prod.fst h) (by simp)
    · rename_i hsz hhd
      obtain ⟨h1, h2⟩ := Prod.mk.injEq .. ▸ h
      obtain rfl : pg = st.free_list_head := by
        simpa using h1.symm
      exact ⟨rfl, hhd, by omega, h2.symm⟩

/-- A failed `kalloc` leaves the state unchanged. -/
theorem kalloc_failure {sz : Nat} {st : AllocState} {st' : AllocState}
    (h : kalloc sz st = (none, st')) : st' = st := by
  unfold kalloc at h
  split at h
  · exact (congrArg Prod.snd h).symm
  · split at h
    · exact (congrArg Prod.snd h).symm
    · exact absurd (congrArg Prod.fst h) (by simp)

/-- `chainRep` only inspects the link words of listed frames, so it is
stable under memory changes elsewhere. -/
theorem chainRep_congr {mem mem' : Nat → Nat → Nat} {h : Nat} {l : List Nat}
    (hm : ∀ a ∈ l, mem' a 0 = mem a 0) (hr : chainRep mem h l) :
    chainRep mem' h l := by
  induction l generalizing h with
  | nil => exact hr
  | cons a l ih =>
    obtain ⟨heq, hne, hrest⟩ := hr
    refine ⟨heq, hne, ?_⟩
    rw [hm a (List.mem_cons_self a l)]
    exact ih (fun x hx => hm x (List.mem_cons_of_mem a hx)) hrest

/-- `kalloc` preserves the allocator invariant. -/
theorem AllocInv_kalloc (sz : Nat) (st : AllocState) (h : AllocInv st) :
    AllocInv (kalloc sz st).2 := by
  obtain ⟨l, hrep, hnd, hprops⟩ := h
  by_cases hsz : sz > PAGESIZE
  · unfold kalloc
    rw [if_pos hsz]
    exact ⟨l, hrep, hnd, hprops⟩
  · by_cases hhd : st.free_list_head = 0
    · unfold kalloc
      rw [if_neg hsz, if_pos hhd]
      exact ⟨l, hrep, hnd, hprops⟩
    · unfold kalloc
      rw [if_neg hsz, if_neg hhd]
      cases l with
      | nil => exact absurd hrep hhd
      | cons a rest =>
        obtain ⟨ha, hane, hrest⟩ := hrep
        obtain ⟨hnda, hndrest⟩ := List.nodup_cons.mp hnd
        refine ⟨rest, ?_, hndrest, ?_⟩
        · rw [show (some st.free_list_head,
              setRefcount st.free_list_head 1 (memsetPage st.free_list_head
                { st with free_list_head := st.mem st.free_list_head 0 })).2
            = setRefcount st.free_list_head 1 (memsetPage st.free_list_head
                { st with free_list_head := st.mem st.free_list_head 0 }) from rfl]
          rw [ha]
          refine @chainRep_congr st.mem _ _ _ ?_ hrest
          intro x hx
          have hxa : x ≠ a := fun hxa => hnda (hxa ▸ hx)
          simp [setRefcount, memsetPage, hxa]
        · intro x hx
          obtain ⟨hx0, hxal, hxrange, hxrc⟩ :=
            hprops x (List.mem_cons_of_mem a hx)
          refine ⟨hx0, hxal, hxrange, ?_⟩
          have hxa : x ≠ a := fun hxa => hnda (hxa ▸ hx)
          have hdiv : x / PAGESIZE ≠ a / PAGESIZE :=
            aligned_div_ne hxal (hprops a (List.mem_cons_self a rest)).2.1 hxa
          rw [ha]
          simp [setRefcount, hdiv, hxrc]

/-- `kfree` preserves the allocator invariant whenever it does not trip an
assertion. -/
theorem AllocInv_kfree {pa : Nat} {st st' : AllocState}
    (h : AllocInv st) (hk : kfree pa st = some st') : AllocInv st' := by
  obtain ⟨l, hrep, hnd, hprops⟩ := h
  unfold kfree at hk
  by_cases h0 : pa = 0
  · rw [if_pos h0] at hk
    obtain rfl := Option.some.inj hk
    exact ⟨l, hrep, hnd, hprops⟩
  · rw [if_neg h0] at hk
    split at hk
    · cases hk
    · rename_i halign
      split at hk
      · cases hk
      · rename_i hrange
        split at hk
        · cases hk
        · rename_i hrc
          have halign' : pa % PAGESIZE = 0 := not_not.mp halign
          have hrange' : pa / PAGESIZE < NPAGES := not_not.mp hrange
          split at hk
          · rename_i hzero
            obtain rfl := Option.some.inj hk
            refine ⟨[pa], ⟨rfl, h0, ?_⟩, List.nodup_singleton pa, ?_⟩
            · simp [memsetPage, storeLink, setRefcount, chainRep]
            · intro x hx
              obtain rfl := List.mem_singleton.mp hx
              refine ⟨h0, halign', hrange', ?_⟩
              simp [memsetPage, storeLink, setRefcount, hzero]
          · obtain rfl := Option.some.inj hk
            refine ⟨l, ?_, hnd, ?_⟩
            · exact hrep
            · intro x hx
              obtain ⟨hx0, hxal, hxr, hxrc⟩ := hprops x hx
              refine ⟨hx0, hxal, hxr, ?_⟩
              by_cases hi : x / PAGESIZE = pa / PAGESIZE
              · exfalso
                rw [hi] at hxrc
                exact hrc hxrc
              · simp [setRefcount, hi, hxrc]

/-- The boot free-list construction establishes the allocator invariant,
for any batch of distinct, nonzero, page-aligned, in-range pages pushed
onto an already well-formed list none of them is on. -/
theorem initFold_inv :
    ∀ (xs : List Nat) (st : AllocState) (l : List Nat),
      chainRep st.mem st.free_list_head l → l.Nodup →
      (∀ a ∈ l, a ≠ 0 ∧ a % PAGESIZE = 0 ∧ a / PAGESIZE < NPAGES ∧
        st.refcount (a / PAGESIZE) = 0) →
      (∀ a ∈ xs, a ≠ 0 ∧ a % PAGESIZE = 0 ∧ a / PAGESIZE < NPAGES) →
      (∀ a ∈ xs, a ∉ l) → xs.Nodup →
      AllocInv (xs.foldl initStep st)
  | [], _, l, hrep, hnd, hprops, _, _, _ => ⟨l, hrep, hnd, hprops⟩
  | x :: xs, st, l, hrep, hnd, hprops, hxs, hdisj, hxnd => by
    rw [List.foldl_cons]
    have hxl : x ∉ l := hdisj x (List.mem_cons_self x xs)
    obtain ⟨hxnotxs, hxndtail⟩ := List.nodup_cons.mp hxnd
    refine initFold_inv xs (initStep st x) (x :: l) ?_ ?_ ?_ ?_ ?_ hxndtail
    · refine ⟨rfl, (hxs x (List.mem_cons_self x xs)).1, ?_⟩
      have hx0 : (initStep st x).mem x 0 = st.free_list_head := by
        simp [initStep, storeLink, setRefcount]
      rw [hx0]
      refine @chainRep_congr st.mem _ _ _ ?_ hrep
      intro a ha
      have hax : a ≠ x := fun hax => hxl (hax ▸ ha)
      simp [initStep, storeLink, setRefcount, hax]
    · exact List.nodup_cons.mpr ⟨hxl, hnd⟩
    · intro a ha
      rcases List.mem_cons.mp ha with rfl | ha'
      · obtain ⟨h1, h2, h3⟩ := hxs a (List.mem_cons_self a xs)
        refine ⟨h1, h2, h3, ?_⟩
        simp [initStep, storeLink, setRefcount]
      · obtain ⟨h1, h2, h3, h4⟩ := hprops a ha'
        refine ⟨h1, h2, h3, ?_⟩
        by_cases hi : a / PAGESIZE = x / PAGESIZE
        · simp [initStep, storeLink, setRefcount, hi]
        · simp [initStep, storeLink, setRefcount, hi, h4]
    · intro a ha
      exact hxs a (List.mem_cons_of_mem x ha)
    · intro a ha
      intro hmem
      rcases List.mem_cons.mp hmem with rfl | h'
      · exact hxnotxs ha
      · exact hdisj a (List.mem_cons_of_mem x ha) h'

/-- The boot-initialized allocator state satisfies the invariant. -/
theorem initState_inv : AllocInv initState := by
  refine initFold_inv freePageAddrs _ [] rfl List.nodup_nil
    (by intro a ha; cases ha) ?_ (by intro a _ ha; cases ha) ?_
  · intro a ha
    simp only [freePageAddrs, List.mem_filter, List.mem_map,
      List.mem_range, decide_eq_true_eq] at ha
    obtain ⟨⟨k, hk, rfl⟩, hge, _⟩ := ha
    refine ⟨?_, ?_, ?_⟩
    · intro h
      rw [h] at hge
      exact absurd hge (by decide)
    · exact Nat.mul_mod_left k PAGESIZE
    · rw [Nat.mul_div_cancel _ (by decide : 0 < PAGESIZE)]
      exact hk
  · refine List.Nodup.filter _ (List.Nodup.map ?_ (List.nodup_range NPAGES))
    intro a b hab
    exact Nat.eq_of_mul_eq_mul_right (by decide : 0 < PAGESIZE) hab

/-- Running any sequence of allocator operations preserves the invariant. -/
theorem runOps_inv : ∀ (ops : List AOp) (st st' : AllocState),
    AllocInv st → runOps ops st = some st' → AllocInv st'
  | [], _, _, h, hk => by
    obtain rfl := Option.some.inj hk
    exact h
  | op :: ops, st, st', h, hk => by
    unfold runOps at hk
    cases op with
    | alloc sz =>
      rw [show runOp st (.alloc sz) = some (kalloc sz st).2 from rfl,
        Option.some_bind] at hk
      exact runOps_inv ops _ st' (AllocInv_kalloc sz st h) hk
    | free pa =>
      rw [show runOp st (.free pa) = kfree pa st from rfl] at hk
      cases hf : kfree pa st with
      | none =>
        rw [hf] at hk
        cases hk
      | some st1 =>
        rw [hf, Option.some_bind] at hk
        exact runOps_inv ops st1 st' (AllocInv_kfree h hf) hk

/-! ## Claim C6: free-list / reference-count invariant -/

/-- **C6.** After every sequence of `kalloc`/`kfree` operations starting
from the boot-initialized state, the free list is represented by a
duplicate-free frame list all of whose members have reference count 0 (so
a frame with positive count never appears in the free list), and any frame
`kalloc` would return from this state has reference count 0 — it is never
handed out while another owner holds it. -/
theorem free_list_refcount_invariant (ops : List AOp) (st : AllocState)
    (h : runOps ops initState = some st) :
    (∃ l, chainRep st.mem st.free_list_head l ∧ l.Nodup ∧
       ∀ a ∈ l, st.refcount (a / PAGESIZE) = 0) ∧
    (∀ sz pg, (kalloc sz st).1 = some pg →
       st.refcount (pg / PAGESIZE) = 0) := by
  have hinv := runOps_inv ops initState st initState_inv h
  obtain ⟨l, hrep, hnd, hprops⟩ := hinv
  refine ⟨⟨l, hrep, hnd, fun a ha => (hprops a ha).2.2.2⟩, ?_⟩
  intro sz pg hpg
  unfold kalloc at hpg
  split at hpg
  · simp at hpg
  · split at hpg
    · simp at hpg
    · rename_i hsz hhd
      obtain rfl : pg = st.free_list_head := by
        simpa using hpg.symm
      cases l with
      | nil => exact absurd hrep hhd
      | cons a rest =>
        obtain ⟨ha, -, -⟩ := hrep
        rw [ha]
        exact (hprops a (List.mem_cons_self a rest)).2.2.2

/-- Witness for `free_list_refcount_invariant`: the empty operation
sequence at the boot state. -/
theorem free_list_refcount_invariant_witness :
    (∃ l, chainRep initState.mem initState.free_list_head l ∧ l.Nodup ∧
       ∀ a ∈ l, initState.refcount (a / PAGESIZE) = 0) ∧
    (∀ sz pg, (kalloc sz initState).1 = some pg →
       initState.refcount (pg / PAGESIZE) = 0) :=
  free_list_refcount_invariant [] initState rfl

/-! ## Claim C9: oversize allocation requests -/

/-- **C9.** For every size argument strictly greater than one page,
`kalloc` returns failure (`none`) and leaves the free list and every
frame's reference count unchanged (the returned state is the input
state). -/
theorem kalloc_oversize_fails (sz : Nat) (st : AllocState)
    (h : PAGESIZE < sz) : kalloc sz st = (none, st) := by
  unfold kalloc
  rw [if_pos h]

/-- Witness for `kalloc_oversize_fails` at `sz = PAGESIZE + 1`. -/
theorem kalloc_oversize_fails_witness :
    PAGESIZE < 4097 ∧ kalloc 4097 demoState = (none, demoState) :=
  ⟨by decide, kalloc_oversize_fails 4097 demoState (by decide)⟩

/-! ## Claim C2: `kfree` destroys the rest of the free list -/

/-- **C2 (refuting evaluation).** Freeing the frame `0x102000` (reference
count 1) while the free list holds the frame `0x101000`: the freed frame
is zero-filled and becomes the free-list head, but because `kfree`
zero-fills *after* linking (`*pa = head; head = pa; memset`), the link
word is destroyed and the frames reachable from the free list afterwards
are exactly `[0x102000]` — the previously free frame `0x101000` is no
longer reachable, refuting "with the rest of the free list preserved". -/
theorem kfree_truncates_free_list :
    freeChain oneFrameState.mem NPAGES oneFrameState.free_list_head
        = [0x101000] ∧
    (kfree 0x102000 oneFrameState).map
        (fun s => freeChain s.mem NPAGES s.free_list_head)
      = some [0x102000] := by
  constructor
  · decide
  · decide

/-! ## Claim C7: `syscall_page_alloc` validation and failure results -/

/-- **C7.** `syscall_page_alloc` returns -1 and leaves the page table and
the whole allocator state (free list and reference counts) unchanged
whenever the requested address is misaligned or outside
`[PROC_START_ADDR, MEMSIZE_VIRTUAL)`; it returns 0 only when a frame was
allocated and mapped at the address; and for a valid address it returns -1
when allocation or mapping fails. -/
theorem syscall_page_alloc_spec (mapOk : Nat → Bool) (pt : PTab)
    (st : AllocState) (addr : Nat) :
    (¬ (addr % PAGESIZE = 0 ∧ PROC_START_ADDR ≤ addr ∧ addr < MEMSIZE_VIRTUAL) →
        syscall_page_alloc mapOk pt st addr = (-1, pt, st)) ∧
    ((syscall_page_alloc mapOk pt st addr).1 = 0 →
        ∃ pg, (kalloc PAGESIZE st).1 = some pg ∧
          (syscall_page_alloc mapOk pt st addr).2.1 addr
            = some (pg, PTE_P ||| PTE_W ||| PTE_U)) ∧
    ((addr % PAGESIZE = 0 ∧ PROC_START_ADDR ≤ addr ∧ addr < MEMSIZE_VIRTUAL) →
      ((kalloc PAGESIZE st).1 = none ∨ mapOk addr = false) →
        (syscall_page_alloc mapOk pt st addr).1 = -1) := by
  by_cases hc : addr % PAGESIZE ≠ 0 ∨ addr < PROC_START_ADDR ∨ MEMSIZE_VIRTUAL ≤ addr
  · have hres : syscall_page_alloc mapOk pt st addr = (-1, pt, st) := by
      unfold syscall_page_alloc
      rw [if_pos hc]
    refine ⟨fun _ => hres, ?_, fun hv _ => ?_⟩
    · rw [hres]
      intro h
      exact absurd (show (-1 : Int) = 0 from h) (by decide)
    · exfalso
      rcases hc with h | h | h
      · exact h hv.1
      · omega
      · omega
  · have hval : addr % PAGESIZE = 0 ∧ PROC_START_ADDR ≤ addr ∧
        addr < MEMSIZE_VIRTUAL := by
      push_neg at hc
      exact hc
    cases hk : kalloc PAGESIZE st with
    | mk pgOpt st1 =>
      cases pgOpt with
      | none =>
        have hres : syscall_page_alloc mapOk pt st addr = (-1, pt, st1) := by
          unfold syscall_page_alloc
          rw [if_neg hc, hk]
        refine ⟨fun h' => absurd hval h', ?_, fun _ _ => by rw [hres]⟩
        rw [hres]
        intro h
        exact absurd (show (-1 : Int) = 0 from h) (by decide)
      | some pg =>
        by_cases hm : mapOk addr = true
        · have hres : syscall_page_alloc mapOk pt st addr
              = (0, fun v => if v = addr then
                      some (pg, PTE_P ||| PTE_W ||| PTE_U) else pt v,
                 memsetPage pg st1) := by
            unfold syscall_page_alloc
            rw [if_neg hc, hk]
            simp [try_map, hm]
          rw [hres]
          refine ⟨fun h' => absurd hval h',
                  fun _ => ⟨pg, by simp [hk], by simp⟩, fun _ hfail => ?_⟩
          rcases hfail with h | h
          · simp [hk] at h
          · rw [hm] at h
            exact absurd h (by simp)
        · have hm' : mapOk addr = false := by
            simpa using hm
          have hres : syscall_page_alloc mapOk pt st addr
              = (-1, pt,
                 (kfree pg (memsetPage pg st1)).getD (memsetPage pg st1)) := by
            unfold syscall_page_alloc
            rw [if_neg hc, hk]
            simp [try_map, hm']
          rw [hres]
          refine ⟨fun h' => absurd hval h', ?_, fun _ _ => rfl⟩
          intro h
          exact absurd (show (-1 : Int) = 0 from h) (by decide)

/-- Witness for `syscall_page_alloc_spec`: a misaligned address is
rejected with -1 and no state change. -/
theorem syscall_page_alloc_spec_witness :
    syscall_page_alloc (fun _ => true) emptyPT demoState 0x100008
      = (-1, emptyPT, demoState) :=
  (syscall_page_alloc_spec (fun _ => true) emptyPT demoState 0x100008).1
    (by decide)

/-! ## Claim C10: page-alloc over an already mapped address -/

/-- **C10.** Invoking `syscall_page_alloc` on a valid address at which a
page is already mapped succeeds with result 0 (given that a frame is
available and the mapping oracle succeeds, which the claim presupposes by
"installing a new frame"): the freshly allocated frame is installed over
the existing mapping, and the previously mapped frame's reference count is
left exactly as it was — the old frame is not released. -/
theorem syscall_page_alloc_overwrites (mapOk : Nat → Bool) (pt : PTab)
    (st : AllocState) (addr oldpa oldperm pg : Nat)
    (h1 : addr % PAGESIZE = 0) (h2 : PROC_START_ADDR ≤ addr)
    (h3 : addr < MEMSIZE_VIRTUAL)
    (_hmapped : pt addr = some (oldpa, oldperm))
    (halloc : (kalloc PAGESIZE st).1 = some pg)
    (hok : mapOk addr = true)
    (hne : oldpa / PAGESIZE ≠ st.free_list_head / PAGESIZE) :
    (syscall_page_alloc mapOk pt st addr).1 = 0 ∧
    (syscall_page_alloc mapOk pt st addr).2.1 addr
      = some (pg, PTE_P ||| PTE_W ||| PTE_U) ∧
    (syscall_page_alloc mapOk pt st addr).2.2.refcount (oldpa / PAGESIZE)
      = st.refcount (oldpa / PAGESIZE) := by
  have hc : ¬ (addr % PAGESIZE ≠ 0 ∨ addr < PROC_START_ADDR ∨
      MEMSIZE_VIRTUAL ≤ addr) := by
    push_neg
    exact ⟨h1, h2, h3⟩
  cases hk : kalloc PAGESIZE st with
  | mk pgOpt st1 =>
    rw [hk] at halloc
    obtain rfl : pgOpt = some pg := halloc
    have hsucc := kalloc_success hk
    obtain ⟨hpg, -, -, hst1⟩ := hsucc
    have hres : syscall_page_alloc mapOk pt st addr
        = (0, fun v => if v = addr then
                some (pg, PTE_P ||| PTE_W ||| PTE_U) else pt v,
           memsetPage pg st1) := by
      unfold syscall_page_alloc
      rw [if_neg hc, hk]
      simp [try_map, hok]
    rw [hres]
    refine ⟨rfl, by simp, ?_⟩
    rw [← hpg] at hne
    have : st1.refcount (oldpa / PAGESIZE) = st.refcount (oldpa / PAGESIZE) := by
      rw [hst1]
      simp [setRefcount_refcount, hne]
    simpa using this

/-- Witness for `syscall_page_alloc_overwrites`: `0x100000` is already
mapped to frame `0x105000` in `mappedPT`; the syscall installs the fresh
frame `0x110000` over it and the old frame's reference count stays 0. -/
theorem syscall_page_alloc_overwrites_witness :
    (syscall_page_alloc (fun _ => true) mappedPT demoState 0x100000).1 = 0 ∧
    (syscall_page_alloc (fun _ => true) mappedPT demoState 0x100000).2.1 0x100000
      = some (0x110000, PTE_P ||| PTE_W ||| PTE_U) ∧
    (syscall_page_alloc (fun _ => true) mappedPT demoState 0x100000).2.2.refcount
        (0x105000 / PAGESIZE)
      = demoState.refcount (0x105000 / PAGESIZE) :=
  syscall_page_alloc_overwrites (fun _ => true) mappedPT demoState
    0x100000 0x105000 7 0x110000 (by decide) (by decide) (by decide)
    (by decide) (by decide) (by decide) (by decide)

/-! ## Claim C3: the BSS convention is violated by the copy loop -/

set_option maxRecDepth 100000 in
/-- **C3 (refuting evaluation).** Loading the two-page writable segment
with `data_size = 10` (`demoSegBss`): the mapped pages are `0x111000`
(first page) and `0x112000` (second page); the first 10 bytes of the first
page receive the image bytes `1 … 10` as the claim says, but byte 0 of the
second page — segment offset `PAGESIZE`, which lies in
`[data_size, size)` and must stay zero under the BSS convention — holds
`11`, because the copy loop copies `data_size % PAGESIZE` further image
bytes into every later page. -/
theorem process_setup_violates_bss :
    (process_setup (fun _ => true) emptyPT [demoSegBss] 0x100000
        demoState).map
        (fun r => match r.1.pagetable with
                  | some (_, pt) => (pt 0x100000, pt 0x101000)
                  | none => (none, none))
      = some (some (0x111000, 7), some (0x112000, 7)) ∧
    (process_setup (fun _ => true) emptyPT [demoSegBss] 0x100000
        demoState).map
        (fun r => (r.2.mem 0x111000 0, r.2.mem 0x111000 9,
                   r.2.mem 0x111000 10, r.2.mem 0x112000 0))
      = some (1, 10, 0, 11) := by
  constructor
  · decide
  · decide

/-! ## Claim C1: load followed by exit does not restore the free-frame
count -/

/-! ## Claim C5: fork's register file and return value -/

/-- `List.find?` over `range' s n` returns the first element satisfying
the predicate. -/
theorem find?_range'_first (p : Nat → Bool) :
    ∀ (n s a : Nat), (List.range' s n).find? p = some a →
      p a = true ∧ s ≤ a ∧ a < s + n ∧ ∀ j, s ≤ j → j < a → p j = false := by
  intro n
  induction n with
  | zero =>
    intro s a h
    simp [List.range'] at h
  | succ n ih =>
    intro s a h
    rw [List.range'_succ] at h
    cases hp : p s with
    | true =>
      rw [List.find?_cons_of_pos _ hp] at h
      obtain rfl := Option.some.inj h
      exact ⟨hp, Nat.le_refl _, by omega, fun j h1 h2 => absurd h2 (by omega)⟩
    | false =>
      rw [List.find?_cons_of_neg _ (by simp [hp])] at h
      obtain ⟨ha, h1, h2, h3⟩ := ih (s + 1) a h
      refine ⟨ha, by omega, by omega, fun j hj1 hj2 => ?_⟩
      rcases Nat.eq_or_lt_of_le hj1 with rfl | hlt
      · exact hp
      · exact h3 j hlt hj2

/-- The first-free-slot search of `syscall_fork` finds the first `P_FREE`
slot with pid ≥ 1. -/
theorem findFreeSlot_spec {ptable : Nat → Proc} {pid : Nat}
    (h : findFreeSlot ptable = some pid) :
    1 ≤ pid ∧ pid < PID_MAX ∧ (ptable pid).state = .free ∧
      ∀ j, 1 ≤ j → j < pid → (ptable j).state ≠ .free := by
  obtain ⟨hp, h1, h2, h3⟩ := find?_range'_first _ (PID_MAX - 1) 1 pid h
  refine ⟨h1, by simp [PID_MAX] at h2 ⊢; omega, by simpa using hp, ?_⟩
  intro j hj1 hj2 hfree
  have := h3 j hj1 hj2
  rw [decide_eq_false_iff_not] at this
  exact this hfree

/-- Decomposition of a successful `syscall_fork`: every stage succeeded,
the return value is the chosen child pid and the child slot was filled
with a runnable descriptor holding the parent's registers with `rax`
zeroed. -/
theorem syscall_fork_success {mapOk : Nat → Bool} {kernelPT : PTab}
    {ptable : Nat → Proc} {cur : Nat} {st : AllocState} {ret : Int}
    {ptable' : Nat → Proc} {st' : AllocState}
    (h : syscall_fork mapOk kernelPT ptable cur st = some (ret, ptable', st'))
    (hret : 0 ≤ ret) :
    ∃ (childPid croot : Nat) (st1 : AllocState) (pt0 : PTab)
      (proot : Nat) (parentPT childPT : PTab),
      findFreeSlot ptable = some childPid ∧
      kalloc_pagetable st = (some croot, st1) ∧
      copyKernelMappings mapOk kernelPT emptyPT = some pt0 ∧
      (ptable cur).pagetable = some (proot, parentPT) ∧
      forkCopyUser mapOk parentPT userVAs pt0 st1 = some (childPT, st') ∧
      ret = (childPid : Int) ∧
      ptable' = fun i => if i = childPid then
          { state := .runnable, regs := { (ptable cur).regs with rax := 0 },
            pagetable := some (croot, childPT) }
        else ptable i := by
  unfold syscall_fork at h
  split at h
  · rename_i hslot
    obtain ⟨hr, -⟩ := Prod.mk.injEq .. ▸ Option.some.inj h
    rw [← hr] at hret
    exact absurd hret (by decide)
  · rename_i childPid hslot
    split at h
    · rename_i snd hkp
      obtain ⟨hr, -⟩ := Prod.mk.injEq .. ▸ Option.some.inj h
      rw [← hr] at hret
      exact absurd hret (by decide)
    · rename_i croot st1 hkp
      split at h
      · cases h
      · rename_i pt0 hck
        split at h
        · cases h
        · rename_i proot parentPT hpp
          split at h
          · cases h
          · rename_i childPT st2 hfc
            obtain ⟨hr, hrest⟩ := Prod.mk.injEq .. ▸ Option.some.inj h
            obtain ⟨hpt, hst⟩ := Prod.mk.injEq .. ▸ hrest
            subst hst
            exact ⟨childPid, croot, st1, pt0, proot, parentPT, childPT,
              hslot, hkp, hck, hpp, hfc, hr.symm, hpt.symm⟩

/-- **C5.** When fork succeeds, the child descriptor's saved register file
equals the parent's saved register file except that the child's
return-value register `rax` is 0, the child is runnable, and the value
fork returns to the parent is the child's pid — the index of the first
`P_FREE` slot with pid ≥ 1. -/
theorem syscall_fork_child_regs (mapOk : Nat → Bool) (kernelPT : PTab)
    (ptable : Nat → Proc) (cur : Nat) (st : AllocState) (ret : Int)
    (ptable' : Nat → Proc) (st' : AllocState)
    (h : syscall_fork mapOk kernelPT ptable cur st = some (ret, ptable', st'))
    (hret : 0 ≤ ret) :
    ∃ childPid : Nat, ret = (childPid : Int) ∧
      1 ≤ childPid ∧ childPid < PID_MAX ∧ (ptable childPid).state = .free ∧
      (∀ j, 1 ≤ j → j < childPid → (ptable j).state ≠ .free) ∧
      (ptable' childPid).regs = { (ptable cur).regs with rax := 0 } ∧
      (ptable' childPid).state = .runnable := by
  obtain ⟨childPid, croot, st1, pt0, proot, parentPT, childPT,
    hslot, hkp, hck, hpp, hfc, hr, hpt⟩ := syscall_fork_success h hret
  obtain ⟨h1, h2, h3, h4⟩ := findFreeSlot_spec hslot
  refine ⟨childPid, hr, h1, h2, h3, h4, ?_, ?_⟩
  · rw [hpt]
    simp
  · rw [hpt]
    simp

set_option maxRecDepth 1000000 in
/-- Witness for `syscall_fork_child_regs`: fork the one-page process in
slot 1 of `demoPtable`; the child lands in slot 2 with the parent's
registers except `rax = 0`. -/
theorem syscall_fork_child_regs_witness :
    demoForkResult.elim True (fun r =>
      ∃ childPid : Nat, r.1 = (childPid : Int) ∧
        1 ≤ childPid ∧ childPid < PID_MAX ∧
        (demoPtable childPid).state = .free ∧
        (∀ j, 1 ≤ j → j < childPid → (demoPtable j).state ≠ .free) ∧
        (r.2.1 childPid).regs = { (demoPtable 1).regs with rax := 0 } ∧
        (r.2.1 childPid).state = .runnable) := by
  rcases hfork : demoForkResult with _ | ⟨ret, ptable', st'⟩
  · exact trivial
  · have hfst : demoForkResult.map (fun r => r.1) = some 2 := by decide
    rw [hfork] at hfst
    simp only [Option.map_some', Option.some.injEq] at hfst
    exact syscall_fork_child_regs (fun _ => true) emptyPT demoPtable 1
      demoState ret ptable' st' hfork (by rw [hfst]; decide)

/-! ## Claim C4: fork's page sharing and eager copying -/

/-- A successful `try_map` yields the input table updated at `va`. -/
theorem try_map_some {mapOk : Nat → Bool} {pt : PTab} {va pa perm : Nat}
    {pt' : PTab} (h : try_map mapOk pt va pa perm = some pt') :
    pt' = fun v => if v = va then some (pa, perm) else pt v := by
  unfold try_map at h
  split at h
  · exact (Option.some.inj h).symm
  · cases h

theorem userFrames_cons_none {parentPT : PTab} {va : Nat} {rest : List Nat}
    (h : pageFrame parentPT va = none) :
    userFrames parentPT (va :: rest) = userFrames parentPT rest := by
  simp [userFrames, List.filterMap_cons, h]

theorem userFrames_cons_some {parentPT : PTab} {va : Nat} {rest : List Nat}
    {pa : Nat} (h : pageFrame parentPT va = some pa) :
    userFrames parentPT (va :: rest) = pa :: userFrames parentPT rest := by
  simp [userFrames, List.filterMap_cons, h]

theorem mem_userFrames {parentPT : PTab} {rest : List Nat} {va pa perm : Nat}
    (hva : va ∈ rest) (hmap : parentPT va = some (pa, perm))
    (hP : perm &&& PTE_P ≠ 0) (hU : perm &&& PTE_U ≠ 0) :
    pa ∈ userFrames parentPT rest := by
  refine List.mem_filterMap.mpr ⟨va, hva, ?_⟩
  simp [pageFrame, hmap, hP, hU]

/-- The main induction for `forkCopyUser`: from a well-formed free chain
`l` disjoint from the parent's (pairwise distinct, page-aligned) user
frames, a successful walk (A) leaves a well-formed chain that is a
sublist of `l`, (B) writes memory only in frames of `l`, (C) changes
reference counts only at pages of `l` or of the parent's user frames,
(D) touches no page-table entry outside `vas`, and (E) for every walked
page: a read-only user page is shared — same frame, same permissions,
reference count up by exactly one, frame contents untouched — while a
writable user page is copied into a frame freshly popped from `l` whose
contents equal the parent frame's contents at call time. -/
theorem forkCopyUser_spec (mapOk : Nat → Bool) (parentPT : PTab)
    (vas : List Nat) :
    ∀ (pt : PTab) (st : AllocState) (l : List Nat) (pt' : PTab)
      (st' : AllocState),
      forkCopyUser mapOk parentPT vas pt st = some (pt', st') →
      chainRep st.mem st.free_list_head l → l.Nodup →
      (∀ a ∈ l, a ≠ 0 ∧ a % PAGESIZE = 0 ∧ st.refcount (a / PAGESIZE) = 0) →
      (∀ pa ∈ userFrames parentPT vas, pa % PAGESIZE = 0 ∧ pa ∉ l) →
      (userFrames parentPT vas).Nodup →
      vas.Nodup →
      (∀ va ∈ vas, va ≠ CONSOLE_ADDR) →
      (∃ l', l'.Sublist l ∧ chainRep st'.mem st'.free_list_head l' ∧
        l'.Nodup ∧ ∀ a ∈ l', a ≠ 0 ∧ a % PAGESIZE = 0 ∧
          st'.refcount (a / PAGESIZE) = 0) ∧
      (∀ p, p ∉ l → ∀ off, st'.mem p off = st.mem p off) ∧
      (∀ i, (∀ pa ∈ userFrames parentPT vas, pa / PAGESIZE ≠ i) →
        (∀ a ∈ l, a / PAGESIZE ≠ i) → st'.refcount i = st.refcount i) ∧
      (∀ v, v ∉ vas → pt' v = pt v) ∧
      (∀ va ∈ vas, ∀ pa perm, parentPT va = some (pa, perm) →
        perm &&& PTE_P ≠ 0 → perm &&& PTE_U ≠ 0 →
        ((perm &&& PTE_W = 0 →
            pt' va = some (pa, perm) ∧
            st'.refcount (pa / PAGESIZE) = st.refcount (pa / PAGESIZE) + 1 ∧
            ∀ off, st'.mem pa off = st.mem pa off) ∧
         (perm &&& PTE_W ≠ 0 →
            ∃ pg, pg ∈ l ∧ pt' va = some (pg, perm) ∧
              ∀ off, st'.mem pg off = st.mem pa off))) := by
  induction vas with
  | nil =>
    intro pt st l pt' st' h hrep hnd hprops _ _ _ _
    obtain ⟨hpt, hst⟩ := Prod.mk.injEq .. ▸ Option.some.inj h
    subst hpt
    subst hst
    exact ⟨⟨l, List.Sublist.refl l, hrep, hnd, hprops⟩,
      fun _ _ _ => rfl, fun _ _ _ => rfl, fun _ _ => rfl,
      fun va hva => absurd hva (List.not_mem_nil va)⟩
  | cons va rest ih =>
    intro pt st l pt' st' h hrep hnd hprops hfr hfrnd hvnd hcon
    obtain ⟨hvarest, hvndrest⟩ := List.nodup_cons.mp hvnd
    have hconrest : ∀ v ∈ rest, v ≠ CONSOLE_ADDR :=
      fun v hv => hcon v (List.mem_cons_of_mem va hv)
    unfold forkCopyUser at h
    split at h
    -- parentPT va = none: skip
    · rename_i hva
      have hpf : pageFrame parentPT va = none := by
        simp [pageFrame, hva]
      rw [userFrames_cons_none hpf] at hfr hfrnd
      obtain ⟨hA, hB, hC, hD, hE⟩ :=
        ih pt st l pt' st' h hrep hnd hprops hfr hfrnd hvndrest hconrest
      refine ⟨hA, hB, ?_, ?_, ?_⟩
      · intro i hi hl
        exact hC i (by rw [userFrames_cons_none hpf] at hi; exact hi) hl
      · intro v hv
        exact hD v (fun hv' => hv (List.mem_cons_of_mem va hv'))
      · intro va' hva' pa perm hmap hP hU
        rcases List.mem_cons.mp hva' with rfl | hva''
        · rw [hva] at hmap
          cases hmap
        · exact hE va' hva'' pa perm hmap hP hU
    · rename_i pa perm hva
      split at h
      -- present-bit clear: skip
      · rename_i hP0
        have hpf : pageFrame parentPT va = none := by
          simp [pageFrame, hva, hP0]
        rw [userFrames_cons_none hpf] at hfr hfrnd
        obtain ⟨hA, hB, hC, hD, hE⟩ :=
          ih pt st l pt' st' h hrep hnd hprops hfr hfrnd hvndrest hconrest
        refine ⟨hA, hB, ?_, ?_, ?_⟩
        · intro i hi hl
          exact hC i (by rw [userFrames_cons_none hpf] at hi; exact hi) hl
        · intro v hv
          exact hD v (fun hv' => hv (List.mem_cons_of_mem va hv'))
        · intro va' hva' pa' perm' hmap hP hU
          rcases List.mem_cons.mp hva' with rfl | hva''
          · rw [hva] at hmap
            obtain ⟨rfl, rfl⟩ := Prod.mk.injEq .. ▸ Option.some.inj hmap
            exact absurd hP0 hP
          · exact hE va' hva'' pa' perm' hmap hP hU
      · rename_i hPne
        split at h
        -- read-only user page: share and increment the reference count
        · rename_i hro
          obtain ⟨hW0, hUne, -⟩ := hro
          have hpf : pageFrame parentPT va = some pa := by
            simp [pageFrame, hva, hPne, hUne]
          rw [userFrames_cons_some hpf] at hfr hfrnd
          obtain ⟨hpaal, hpanl⟩ := hfr pa (List.mem_cons_self _ _)
          have hfrrest : ∀ q ∈ userFrames parentPT rest,
              q % PAGESIZE = 0 ∧ q ∉ l :=
            fun q hq => hfr q (List.mem_cons_of_mem pa hq)
          obtain ⟨hpanotrest, hfrndrest⟩ := List.nodup_cons.mp hfrnd
          split at h
          · cases h
          · rename_i pt1 hmapok
            have hpt1 := try_map_some hmapok
            -- state after the reference-count increment
            have hprops1 : ∀ a ∈ l, a ≠ 0 ∧ a % PAGESIZE = 0 ∧
                (incRefcount pa st).refcount (a / PAGESIZE) = 0 := by
              intro a ha
              obtain ⟨h1, h2, h3⟩ := hprops a ha
              refine ⟨h1, h2, ?_⟩
              rw [incRefcount_refcount]
              rw [if_neg]
              · exact h3
              · exact fun heq =>
                  aligned_div_ne h2 hpaal (fun hax => hpanl (hax ▸ ha)) heq
            obtain ⟨hA, hB, hC, hD, hE⟩ :=
              ih pt1 (incRefcount pa st) l pt' st' h hrep hnd hprops1
                hfrrest hfrndrest hvndrest hconrest
            have hmemeq : ∀ p off, (incRefcount pa st).mem p off = st.mem p off :=
              fun _ _ => rfl
            refine ⟨?_, ?_, ?_, ?_, ?_⟩
            · obtain ⟨l', hsub, hrep', hnd', hprops'⟩ := hA
              exact ⟨l', hsub, hrep', hnd', hprops'⟩
            · intro p hp off
              exact hB p hp off
            · intro i hi hl
              rw [userFrames_cons_some hpf] at hi
              rw [hC i (fun q hq => hi q (List.mem_cons_of_mem pa hq)) hl]
              rw [incRefcount_refcount,
                if_neg (show ¬ i = pa / PAGESIZE from
                  fun heq => hi pa (List.mem_cons_self _ _) heq.symm)]
            · intro v hv
              rw [hD v (fun hv' => hv (List.mem_cons_of_mem va hv')), hpt1]
              exact if_neg (show ¬ v = va from
                fun hveq => hv (hveq ▸ List.mem_cons_self va rest))
            · intro va' hva' pa' perm' hmap hP hU
              rcases List.mem_cons.mp hva' with rfl | hva''
              · rw [hva] at hmap
                obtain ⟨rfl, rfl⟩ := Prod.mk.injEq .. ▸ Option.some.inj hmap
                constructor
                · intro _
                  refine ⟨?_, ?_, ?_⟩
                  · rw [hD va' hvarest, hpt1]
                    simp
                  · have hidx : ∀ q ∈ userFrames parentPT rest,
                        q / PAGESIZE ≠ pa / PAGESIZE := by
                      intro q hq
                      exact aligned_div_ne (hfrrest q hq).1 hpaal
                        (fun hqa : q = pa => hpanotrest (hqa ▸ hq))
                    have hlidx : ∀ a ∈ l, a / PAGESIZE ≠ pa / PAGESIZE := by
                      intro a ha
                      exact aligned_div_ne (hprops a ha).2.1 hpaal
                        (fun hax : a = pa => hpanl (hax ▸ ha))
                    rw [hC _ hidx hlidx, incRefcount_refcount, if_pos rfl]
                  · intro off
                    exact hB pa hpanl off
                · intro hW
                  exact absurd hW0 hW
              · have hE' := hE va' hva'' pa' perm' hmap hP hU
                have hpamem : pa' ∈ userFrames parentPT rest :=
                  mem_userFrames hva'' hmap hP hU
                have hpane : pa' / PAGESIZE ≠ pa / PAGESIZE :=
                  aligned_div_ne (hfrrest pa' hpamem).1 hpaal
                    (fun h' : pa' = pa => hpanotrest (h' ▸ hpamem))
                constructor
                · intro hW'
                  obtain ⟨he1, he2, he3⟩ := hE'.1 hW'
                  refine ⟨he1, ?_, ?_⟩
                  · rw [he2, incRefcount_refcount,
                      if_neg (show ¬ pa' / PAGESIZE = pa / PAGESIZE from hpane)]
                  · intro off
                    exact he3 off
                · intro hW'
                  obtain ⟨pg, hpg, he1, he2⟩ := hE'.2 hW'
                  exact ⟨pg, hpg, he1, fun off => he2 off⟩
        -- writable user page: eager copy into a fresh frame
        · rename_i hnro
          split at h
          · rename_i hwr
            obtain ⟨hWne, hUne, -⟩ := hwr
            have hpf : pageFrame parentPT va = some pa := by
              simp [pageFrame, hva, hPne, hUne]
            rw [userFrames_cons_some hpf] at hfr hfrnd
            obtain ⟨hpaal, hpanl⟩ := hfr pa (List.mem_cons_self _ _)
            have hfrrest : ∀ q ∈ userFrames parentPT rest,
                q % PAGESIZE = 0 ∧ q ∉ l :=
              fun q hq => hfr q (List.mem_cons_of_mem pa hq)
            obtain ⟨hpanotrest, hfrndrest⟩ := List.nodup_cons.mp hfrnd
            split at h
            · cases h
            · rename_i pg st1k hkalloc
              split at h
              · cases h
              · rename_i pt1 hmapok
                have hpt1 := try_map_some hmapok
                obtain ⟨hpg, hpgne, -, hst1k⟩ := kalloc_success hkalloc
                -- the free chain must start with the allocated frame
                cases l with
                | nil =>
                  rw [hpg] at hpgne
                  exact absurd hrep hpgne
                | cons a l1 =>
                  obtain ⟨hha, -, hrest⟩ := hrep
                  have hpga : pg = a := by
                    rw [hpg, hha]
                  subst hpga
                  obtain ⟨hpgnl1, hndl1⟩ := List.nodup_cons.mp hnd
                  obtain ⟨-, hpgal, -⟩ := hprops pg (List.mem_cons_self _ _)
                  have hpapg : pa ≠ pg :=
                    fun hx => hpanl (hx ▸ List.mem_cons_self pg l1)
                  -- the state after kalloc + memcpy
                  have hmem2 : ∀ p off, (memcpyPage pg pa st1k).mem p off
                      = if p = pg then st.mem pa off else st.mem p off := by
                    intro p off
                    rw [memcpyPage_mem]
                    by_cases hppg : p = pg
                    · rw [if_pos hppg, if_pos hppg, hst1k]
                      simp [memsetPage, setRefcount, hpapg]
                    · rw [if_neg hppg, if_neg hppg, hst1k]
                      simp [memsetPage, setRefcount, hppg]
                  have hhead2 : (memcpyPage pg pa st1k).free_list_head
                      = st.mem pg 0 := by
                    rw [memcpyPage_head, hst1k]
                    rfl
                  have hrc2 : ∀ i, (memcpyPage pg pa st1k).refcount i
                      = if i = pg / PAGESIZE then 1 else st.refcount i := by
                    intro i
                    rw [memcpyPage_refcount, hst1k]
                    rfl
                  have hrep2 : chainRep (memcpyPage pg pa st1k).mem
                      (memcpyPage pg pa st1k).free_list_head l1 := by
                    rw [hhead2]
                    refine @chainRep_congr st.mem _ _ _ ?_ hrest
                    intro x hx
                    rw [hmem2]
                    rw [if_neg (show ¬ x = pg from
                      fun hxp => hpgnl1 (hxp ▸ hx))]
                  have hprops2 : ∀ x ∈ l1, x ≠ 0 ∧ x % PAGESIZE = 0 ∧
                      (memcpyPage pg pa st1k).refcount (x / PAGESIZE) = 0 := by
                    intro x hx
                    obtain ⟨h1, h2, h3⟩ :=
                      hprops x (List.mem_cons_of_mem pg hx)
                    refine ⟨h1, h2, ?_⟩
                    rw [hrc2, if_neg (show ¬ x / PAGESIZE = pg / PAGESIZE from
                      aligned_div_ne h2 hpgal
                        (fun hxp : x = pg => hpgnl1 (hxp ▸ hx)))]
                    exact h3
                  have hfrrest1 : ∀ q ∈ userFrames parentPT rest,
                      q % PAGESIZE = 0 ∧ q ∉ l1 := by
                    intro q hq
                    obtain ⟨ha1, ha2⟩ := hfrrest q hq
                    exact ⟨ha1, fun hql1 => ha2 (List.mem_cons_of_mem pg hql1)⟩
                  obtain ⟨hA, hB, hC, hD, hE⟩ :=
                    ih pt1 (memcpyPage pg pa st1k) l1 pt' st' h hrep2 hndl1
                      hprops2 hfrrest1 hfrndrest hvndrest hconrest
                  refine ⟨?_, ?_, ?_, ?_, ?_⟩
                  · obtain ⟨l', hsub, hrep', hnd', hprops'⟩ := hA
                    exact ⟨l', hsub.trans (List.sublist_cons_self pg l1),
                      hrep', hnd', hprops'⟩
                  · intro p hp off
                    have hpl1 : p ∉ l1 :=
                      fun hx => hp (List.mem_cons_of_mem pg hx)
                    have hppg : p ≠ pg :=
                      fun hx : p = pg => hp (hx ▸ List.mem_cons_self pg l1)
                    rw [hB p hpl1 off, hmem2, if_neg hppg]
                  · intro i hi hl
                    rw [userFrames_cons_some hpf] at hi
                    have hil1 : ∀ x ∈ l1, x / PAGESIZE ≠ i :=
                      fun x hx => hl x (List.mem_cons_of_mem pg hx)
                    rw [hC i (fun q hq => hi q (List.mem_cons_of_mem pa hq))
                      hil1]
                    rw [hrc2, if_neg (show ¬ i = pg / PAGESIZE from
                      fun heq => hl pg (List.mem_cons_self pg l1) heq.symm)]
                  · intro v hv
                    rw [hD v (fun hv' => hv (List.mem_cons_of_mem va hv')),
                      hpt1]
                    exact if_neg (show ¬ v = va from
                      fun hveq => hv (hveq ▸ List.mem_cons_self va rest))
                  · intro va' hva' pa' perm' hmap hP hU
                    rcases List.mem_cons.mp hva' with rfl | hva''
                    · rw [hva] at hmap
                      obtain ⟨rfl, rfl⟩ := Prod.mk.injEq .. ▸
                        Option.some.inj hmap
                      constructor
                      · intro hW0'
                        exact absurd hW0' hWne
                      · intro _
                        refine ⟨pg, List.mem_cons_self pg l1, ?_, ?_⟩
                        · rw [hD va' hvarest, hpt1]
                          simp
                        · intro off
                          rw [hB pg hpgnl1 off, hmem2, if_pos rfl]
                    · have hE' := hE va' hva'' pa' perm' hmap hP hU
                      have hpamem : pa' ∈ userFrames parentPT rest :=
                        mem_userFrames hva'' hmap hP hU
                      have hpa'l : pa' ∉ pg :: l1 := (hfrrest pa' hpamem).2
                      have hpa'pg : pa' ≠ pg :=
                        fun hx : pa' = pg =>
                          hpa'l (hx ▸ List.mem_cons_self pg l1)
                      constructor
                      · intro hW'
                        obtain ⟨he1, he2, he3⟩ := hE'.1 hW'
                        refine ⟨he1, ?_, ?_⟩
                        · rw [he2, hrc2, if_neg]
                          exact fun heq => aligned_div_ne
                            (hfrrest pa' hpamem).1 hpgal hpa'pg heq
                        · intro off
                          rw [he3 off, hmem2, if_neg hpa'pg]
                      · intro hW'
                        obtain ⟨pg', hpg', he1, he2⟩ := hE'.2 hW'
                        refine ⟨pg', List.mem_cons_of_mem pg hpg', he1, ?_⟩
                        intro off
                        rw [he2 off, hmem2, if_neg hpa'pg]
          -- present but not user-accessible: skip
          · rename_i hnwr
            have hU0 : perm &&& PTE_U = 0 := by
              by_cases hU : perm &&& PTE_U = 0
              · exact hU
              · exfalso
                by_cases hW : perm &&& PTE_W = 0
                · exact hnro ⟨hW, hU, hcon va (List.mem_cons_self va rest)⟩
                · exact hnwr ⟨hW, hU, hcon va (List.mem_cons_self va rest)⟩
            have hpf : pageFrame parentPT va = none := by
              simp [pageFrame, hva, hU0]
            rw [userFrames_cons_none hpf] at hfr hfrnd
            obtain ⟨hA, hB, hC, hD, hE⟩ :=
              ih pt st l pt' st' h hrep hnd hprops hfr hfrnd hvndrest hconrest
            refine ⟨hA, hB, ?_, ?_, ?_⟩
            · intro i hi hl
              exact hC i (by rw [userFrames_cons_none hpf] at hi; exact hi) hl
            · intro v hv
              exact hD v (fun hv' => hv (List.mem_cons_of_mem va hv'))
            · intro va' hva' pa' perm' hmap hP hU
              rcases List.mem_cons.mp hva' with rfl | hva''
              · rw [hva] at hmap
                obtain ⟨rfl, rfl⟩ := Prod.mk.injEq .. ▸ Option.some.inj hmap
                exact absurd hU0 hU
              · exact hE va' hva'' pa' perm' hmap hP hU

/-- The user-region page addresses are pairwise distinct. -/
theorem userVAs_nodup : userVAs.Nodup := by
  refine List.Nodup.map ?_ (List.nodup_range _)
  intro a b hab
  simp only [PAGESIZE, PROC_START_ADDR] at hab
  omega

/-- No user-region page address is the console page. -/
theorem userVAs_ne_console : ∀ va ∈ userVAs, va ≠ CONSOLE_ADDR := by
  intro va hva
  simp only [userVAs, List.mem_map, List.mem_range] at hva
  obtain ⟨k, -, rfl⟩ := hva
  simp only [PROC_START_ADDR, CONSOLE_ADDR, PAGESIZE]
  omega

/-- The state after a successful `kalloc` relative to a represented free
chain: the chain loses its head (the allocated frame) and nothing else
changes outside that frame. -/
theorem kalloc_state_facts {sz : Nat} {st : AllocState} {pg : Nat}
    {st1 : AllocState} {l : List Nat}
    (hk : kalloc sz st = (some pg, st1))
    (hrep : chainRep st.mem st.free_list_head l) (hnd : l.Nodup)
    (hprops : ∀ a ∈ l, a ≠ 0 ∧ a % PAGESIZE = 0 ∧
      st.refcount (a / PAGESIZE) = 0) :
    ∃ l1, l = pg :: l1 ∧
      chainRep st1.mem st1.free_list_head l1 ∧ l1.Nodup ∧
      (∀ a ∈ l1, a ≠ 0 ∧ a % PAGESIZE = 0 ∧
        st1.refcount (a / PAGESIZE) = 0) ∧
      (∀ p, p ≠ pg → ∀ off, st1.mem p off = st.mem p off) ∧
      (∀ i, i ≠ pg / PAGESIZE → st1.refcount i = st.refcount i) := by
  obtain ⟨hpg, hpgne, -, hst1⟩ := kalloc_success hk
  cases l with
  | nil =>
    rw [hpg] at hpgne
    exact absurd hrep hpgne
  | cons a l1 =>
    obtain ⟨hha, -, hrest⟩ := hrep
    have hpga : pg = a := by
      rw [hpg, hha]
    subst hpga
    obtain ⟨hnpg, hnd1⟩ := List.nodup_cons.mp hnd
    obtain ⟨-, hpgal, -⟩ := hprops pg (List.mem_cons_self _ _)
    have hmem1 : ∀ p, p ≠ pg → ∀ off, st1.mem p off = st.mem p off := by
      intro p hp off
      rw [hst1]
      simp [memsetPage, setRefcount, hp]
    have hrc1 : ∀ i, i ≠ pg / PAGESIZE → st1.refcount i = st.refcount i := by
      intro i hi
      rw [hst1]
      simp [setRefcount, memsetPage, hi]
    have hhead1 : st1.free_list_head = st.mem pg 0 := by
      rw [hst1]
      rfl
    refine ⟨l1, rfl, ?_, hnd1, ?_, hmem1, hrc1⟩
    · rw [hhead1]
      refine @chainRep_congr st.mem _ _ _ ?_ hrest
      intro x hx
      exact hmem1 x (fun hxpg : x = pg => hnpg (hxpg ▸ hx)) 0
    · intro x hx
      obtain ⟨h1, h2, h3⟩ := hprops x (List.mem_cons_of_mem pg hx)
      refine ⟨h1, h2, ?_⟩
      rw [hrc1 _ (aligned_div_ne h2 hpgal
        (fun hxpg : x = pg => hnpg (hxpg ▸ hx)))]
      exact h3

/-- **C4.** When fork succeeds, for every present user-accessible page of
the parent in the user region (given the natural well-formedness side
conditions: a duplicate-free free chain of nonzero aligned frames with
zero reference counts, and the parent's user frames page-aligned,
pairwise distinct and disjoint from the free chain): a read-only page is
shared — the child maps the *same* frame with the *same* permissions, the
frame's reference count goes up by exactly one and its contents are not
written — while a writable page is duplicated eagerly — the child maps a
frame freshly taken from the free chain whose contents equal the parent
page's contents at fork time, with the parent's (writable, user)
permission bits. -/
theorem syscall_fork_page_semantics (mapOk : Nat → Bool) (kernelPT : PTab)
    (ptable : Nat → Proc) (cur : Nat) (st : AllocState) (ret : Int)
    (ptable' : Nat → Proc) (st' : AllocState) (proot : Nat) (parentPT : PTab)
    (l : List Nat)
    (h : syscall_fork mapOk kernelPT ptable cur st = some (ret, ptable', st'))
    (hret : 0 ≤ ret)
    (hpp : (ptable cur).pagetable = some (proot, parentPT))
    (hrep : chainRep st.mem st.free_list_head l) (hnd : l.Nodup)
    (hprops : ∀ a ∈ l, a ≠ 0 ∧ a % PAGESIZE = 0 ∧
      st.refcount (a / PAGESIZE) = 0)
    (hfr : ∀ pa ∈ userFrames parentPT userVAs, pa % PAGESIZE = 0 ∧ pa ∉ l)
    (hfrnd : (userFrames parentPT userVAs).Nodup) :
    ∃ (childPid croot : Nat) (childPT : PTab),
      ret = (childPid : Int) ∧
      (ptable' childPid).pagetable = some (croot, childPT) ∧
      ∀ va ∈ userVAs, ∀ pa perm, parentPT va = some (pa, perm) →
        perm &&& PTE_P ≠ 0 → perm &&& PTE_U ≠ 0 →
        ((perm &&& PTE_W = 0 →
            childPT va = some (pa, perm) ∧
            st'.refcount (pa / PAGESIZE) = st.refcount (pa / PAGESIZE) + 1 ∧
            ∀ off, st'.mem pa off = st.mem pa off) ∧
         (perm &&& PTE_W ≠ 0 →
            ∃ pg, pg ∈ l ∧ childPT va = some (pg, perm) ∧
              ∀ off, st'.mem pg off = st.mem pa off)) := by
  obtain ⟨childPid, croot, st1, pt0, proot', parentPT', childPT,
    hslot, hkp, hck, hpp', hfc, hr, hpt⟩ := syscall_fork_success h hret
  rw [hpp] at hpp'
  obtain ⟨hpr, hppt⟩ := Prod.mk.injEq .. ▸ Option.some.inj hpp'
  subst hpr
  subst hppt
  have hkp' : kalloc PAGESIZE st = (some croot, st1) := hkp
  obtain ⟨l1, rfl, hrep1, hnd1, hprops1, hmem1, hrc1⟩ :=
    kalloc_state_facts hkp' hrep hnd hprops
  have hcrootal : croot % PAGESIZE = 0 :=
    (hprops croot (List.mem_cons_self _ _)).2.1
  have hfr1 : ∀ pa ∈ userFrames parentPT userVAs,
      pa % PAGESIZE = 0 ∧ pa ∉ l1 := by
    intro q hq
    obtain ⟨h1, h2⟩ := hfr q hq
    exact ⟨h1, fun hql1 => h2 (List.mem_cons_of_mem croot hql1)⟩
  obtain ⟨-, hB, -, -, hE⟩ :=
    forkCopyUser_spec mapOk parentPT userVAs pt0 st1 l1 childPT st' hfc
      hrep1 hnd1 hprops1 hfr1 hfrnd userVAs_nodup userVAs_ne_console
  refine ⟨childPid, croot, childPT, hr, ?_, ?_⟩
  · rw [hpt]
    simp
  · intro va hva pa perm hmap hP hU
    have hEva := hE va hva pa perm hmap hP hU
    have hpamem : pa ∈ userFrames parentPT userVAs :=
      mem_userFrames hva hmap hP hU
    have hpal : pa ∉ croot :: l1 := (hfr pa hpamem).2
    have hpacroot : pa ≠ croot :=
      fun hx : pa = croot => hpal (hx ▸ List.mem_cons_self croot l1)
    constructor
    · intro hW
      obtain ⟨he1, he2, he3⟩ := hEva.1 hW
      refine ⟨he1, ?_, ?_⟩
      · rw [he2, hrc1 _ (aligned_div_ne (hfr pa hpamem).1 hcrootal hpacroot)]
      · intro off
        rw [he3 off, hmem1 pa hpacroot off]
    · intro hW
      obtain ⟨pg, hpg, he1, he2⟩ := hEva.2 hW
      refine ⟨pg, List.mem_cons_of_mem croot hpg, he1, ?_⟩
      intro off
      rw [he2 off, hmem1 pa hpacroot off]

set_option maxRecDepth 1000000 in
/-- Witness for `syscall_fork_page_semantics`: forking the one-writable-
page process of `demoPtable` from the five-frame allocator state. -/
theorem syscall_fork_page_semantics_witness :
    demoForkResult.elim True (fun r =>
      ∃ (childPid croot : Nat) (childPT : PTab),
        r.1 = (childPid : Int) ∧
        (r.2.1 childPid).pagetable = some (croot, childPT) ∧
        ∀ va ∈ userVAs, ∀ pa perm, mappedPT va = some (pa, perm) →
          perm &&& PTE_P ≠ 0 → perm &&& PTE_U ≠ 0 →
          ((perm &&& PTE_W = 0 →
              childPT va = some (pa, perm) ∧
              r.2.2.refcount (pa / PAGESIZE)
                = demoState.refcount (pa / PAGESIZE) + 1 ∧
              ∀ off, r.2.2.mem pa off = demoState.mem pa off) ∧
           (perm &&& PTE_W ≠ 0 →
              ∃ pg, pg ∈ demoChain ∧ childPT va = some (pg, perm) ∧
                ∀ off, r.2.2.mem pg off = demoState.mem pa off))) := by
  rcases hfork : demoForkResult with _ | ⟨ret, ptable', st'⟩
  · exact trivial
  · have hfst : demoForkResult.map (fun r => r.1) = some 2 := by decide
    rw [hfork] at hfst
    simp only [Option.map_some', Option.some.injEq] at hfst
    exact syscall_fork_page_semantics (fun _ => true) emptyPT demoPtable 1
      demoState ret ptable' st' 0x105000 mappedPT demoChain hfork
      (by rw [hfst]; decide) rfl (by decide) (by decide) (by decide)
      (by decide) (by decide)

/-! ## Claim C8: round-robin scheduler fairness -/

/-- A number below `2 * P` reduces modulo `P` by at most one subtraction. -/
theorem mod_two_regions {P x : Nat} (_hP : 0 < P) (hx : x < 2 * P) :
    x % P = if x < P then x else x - P := by
  split_ifs with h
  · exact Nat.mod_eq_of_lt h
  · rw [Nat.mod_eq_sub_mod (Nat.le_of_not_lt h)]
    exact Nat.mod_eq_of_lt (by omega)

theorem cycDist_lt {P c q : Nat} (hc : c < P) (hq : q < P) :
    cycDist P c q < P := by
  unfold cycDist
  split_ifs <;> omega

theorem cycDist_self {P p : Nat} (hp : p < P) : cycDist P p p = P - 1 := by
  unfold cycDist
  split_ifs <;> omega

/-- Probing `cycDist + 1` slots past the cursor lands exactly on `q`. -/
theorem cycDist_pos_eq {P c q : Nat} (hc : c < P) (hq : q < P) :
    (c + (cycDist P c q + 1)) % P = q := by
  have hP : 0 < P := by omega
  by_cases h : c < q
  · have h1 : c + (cycDist P c q + 1) = q := by
      unfold cycDist
      rw [if_pos h]
      omega
    rw [h1, Nat.mod_eq_of_lt hq]
  · have h1 : c + (cycDist P c q + 1) = q + P := by
      unfold cycDist
      rw [if_neg h]
      omega
    rw [h1, mod_two_regions hP (by omega), if_neg (by omega)]
    omega

/-- The slot reached by the `j`-th probe is at cyclic distance `j - 1`. -/
theorem cycDist_dist_of_probe {P c j : Nat} (hc : c < P) (h1 : 1 ≤ j)
    (h2 : j ≤ P) : cycDist P c ((c + j) % P) = j - 1 := by
  have hP : 0 < P := by omega
  rw [mod_two_regions hP (by omega)]
  by_cases h : c + j < P
  · rw [if_pos h]
    unfold cycDist
    rw [if_pos (by omega)]
    omega
  · rw [if_neg h]
    unfold cycDist
    rw [if_neg (by omega)]
    omega

theorem cycDist_inj {P c q q' : Nat} (hc : c < P) (hq : q < P) (hq' : q' < P)
    (h : cycDist P c q = cycDist P c q') : q = q' := by
  unfold cycDist at h
  split_ifs at h <;> omega

/-- Moving the cursor to a strictly nearer slot shrinks cyclic distances
by exactly that slot's distance plus one. -/
theorem cycDist_step {P c p q : Nat} (hc : c < P) (hp : p < P) (hq : q < P)
    (hlt : cycDist P c p < cycDist P c q) :
    cycDist P p q = cycDist P c q - cycDist P c p - 1 := by
  unfold cycDist at hlt ⊢
  split_ifs at hlt ⊢ <;> omega

/-- A failed sweep means no probed slot was runnable. -/
theorem schedFind_none_spec (runnable : Nat → Bool) (P : Nat) :
    ∀ (fuel c : Nat), schedFind runnable P c fuel = none →
      ∀ j, 1 ≤ j → j ≤ fuel → runnable ((c + j) % P) = false := by
  intro fuel
  induction fuel with
  | zero =>
    intro c _ j h1 h2
    omega
  | succ n ih =>
    intro c h j h1 h2
    unfold schedFind at h
    by_cases hr : runnable ((c + 1) % P) = true
    · rw [if_pos hr] at h
      cases h
    · rw [if_neg hr] at h
      by_cases hj : j = 1
      · subst hj
        exact Bool.eq_false_iff.mpr hr
      · have := ih ((c + 1) % P) h (j - 1) (by omega) (by omega)
        rw [Nat.mod_add_mod] at this
        have h4 : c + 1 + (j - 1) = c + j := by omega
        rw [h4] at this
        exact this

/-- A successful sweep dispatches the first runnable probe. -/
theorem schedFind_some_spec (runnable : Nat → Bool) (P : Nat) :
    ∀ (fuel c p : Nat), schedFind runnable P c fuel = some p →
      ∃ j, 1 ≤ j ∧ j ≤ fuel ∧ p = (c + j) % P ∧ runnable p = true ∧
        ∀ i, 1 ≤ i → i < j → runnable ((c + i) % P) = false := by
  intro fuel
  induction fuel with
  | zero =>
    intro c p h
    cases h
  | succ n ih =>
    intro c p h
    unfold schedFind at h
    by_cases hr : runnable ((c + 1) % P) = true
    · rw [if_pos hr] at h
      obtain rfl := Option.some.inj h
      exact ⟨1, Nat.le_refl 1, by omega, rfl, hr,
        fun i hi1 hi2 => absurd hi2 (by omega)⟩
    · rw [if_neg hr] at h
      obtain ⟨j, hj1, hj2, hp, hrp, hmin⟩ := ih ((c + 1) % P) p h
      refine ⟨j + 1, by omega, by omega, ?_, hrp, ?_⟩
      · rw [hp, Nat.mod_add_mod]
        have h3 : c + 1 + j = c + (j + 1) := by omega
        rw [h3]
      · intro i hi1 hi2
        by_cases hi : i = 1
        · subst hi
          exact Bool.eq_false_iff.mpr hr
        · have := hmin (i - 1) (by omega) (by omega)
          rw [Nat.mod_add_mod] at this
          have h4 : c + 1 + (i - 1) = c + i := by omega
          rw [h4] at this
          exact this

/-- When some slot is runnable, one sweep dispatches the runnable slot of
minimal cyclic distance from the cursor. -/
theorem schedule_argmin {runnable : Nat → Bool} {P c q : Nat}
    (hc : c < P) (hq : q < P) (hrq : runnable q = true) :
    ∃ p, schedule runnable P c = some p ∧ runnable p = true ∧ p < P ∧
      ∀ q', q' < P → runnable q' = true →
        cycDist P c p ≤ cycDist P c q' := by
  have hP : 0 < P := by omega
  cases hs : schedule runnable P c with
  | none =>
    exfalso
    have hd := cycDist_lt hc hq
    have hnone := schedFind_none_spec runnable P P c hs
      (cycDist P c q + 1) (by omega) (by omega)
    rw [cycDist_pos_eq hc hq, hrq] at hnone
    cases hnone
  | some p =>
    obtain ⟨j, hj1, hj2, hp, hrp, hmin⟩ :=
      schedFind_some_spec runnable P P c p hs
    have hpP : p < P := by
      rw [hp]
      exact Nat.mod_lt _ hP
    have hdp : cycDist P c p = j - 1 := by
      rw [hp]
      exact cycDist_dist_of_probe hc hj1 hj2
    refine ⟨p, rfl, hrp, hpP, ?_⟩
    intro q' hq' hrq'
    by_contra hgt
    push_neg at hgt
    have hdq' := cycDist_lt hc hq'
    have := hmin (cycDist P c q' + 1) (by omega) (by omega)
    rw [cycDist_pos_eq hc hq', hrq'] at this
    cases this

/-- Dispatching the nearest runnable slot removes exactly that one slot
from the runnable slots between the cursor and `q`. -/
theorem gapCount_step {runnable : Nat → Bool} {P c p q : Nat}
    (hc : c < P) (hp : p < P) (hq : q < P)
    (hrp : runnable p = true) (hrq : runnable q = true) (hne : q ≠ p)
    (hmin : ∀ q', q' < P → runnable q' = true →
      cycDist P c p ≤ cycDist P c q') :
    gapCount runnable P c q = gapCount runnable P p q + 1 := by
  have hstrict : ∀ q', q' < P → runnable q' = true → q' ≠ p →
      cycDist P c p < cycDist P c q' := by
    intro q' h1 h2 h3
    rcases Nat.lt_or_ge (cycDist P c p) (cycDist P c q') with h | h
    · exact h
    · have hle := hmin q' h1 h2
      have heq : cycDist P c p = cycDist P c q' := by omega
      exact absurd (cycDist_inj hc hp h1 heq).symm h3
  have hpq : cycDist P c p < cycDist P c q := hstrict q hq hrq hne
  have hdq : cycDist P p q = cycDist P c q - cycDist P c p - 1 :=
    cycDist_step hc hp hq hpq
  unfold gapCount
  have hins : (Finset.range P).filter
      (fun r => runnable r = true ∧ cycDist P c r < cycDist P c q)
      = insert p ((Finset.range P).filter
        (fun r => runnable r = true ∧ cycDist P p r < cycDist P p q)) := by
    ext r
    simp only [Finset.mem_insert, Finset.mem_filter, Finset.mem_range]
    constructor
    · rintro ⟨hrP, hrr, hrd⟩
      by_cases hrpeq : r = p
      · exact Or.inl hrpeq
      · refine Or.inr ⟨hrP, hrr, ?_⟩
        have h1 : cycDist P c p < cycDist P c r := hstrict r hrP hrr hrpeq
        have h2 : cycDist P p r = cycDist P c r - cycDist P c p - 1 :=
          cycDist_step hc hp hrP h1
        omega
    · rintro (rfl | ⟨hrP, hrr, hrd⟩)
      · exact ⟨hp, hrp, hpq⟩
      · have hrpeq : r ≠ p := by
          intro hrp'
          subst hrp'
          rw [cycDist_self hp] at hrd
          have := cycDist_lt hp hq
          omega
        have h1 : cycDist P c p < cycDist P c r := hstrict r hrP hrr hrpeq
        have h2 : cycDist P p r = cycDist P c r - cycDist P c p - 1 :=
          cycDist_step hc hp hrP h1
        exact ⟨hrP, hrr, by omega⟩
  rw [hins, Finset.card_insert_of_not_mem]
  · intro hmem
    obtain ⟨-, -, hd⟩ := Finset.mem_filter.mp hmem
    rw [cycDist_self hp] at hd
    have := cycDist_lt hp hq
    omega

/-- The gap count is always below the number of runnable slots. -/
theorem gapCount_card {runnable : Nat → Bool} {P c q : Nat}
    (hq : q < P) (hrq : runnable q = true) :
    gapCount runnable P c q < runnableCount runnable P := by
  unfold gapCount runnableCount
  apply Finset.card_lt_card
  rw [Finset.ssubset_iff_of_subset]
  · refine ⟨q, Finset.mem_filter.mpr ⟨Finset.mem_range.mpr hq, hrq⟩, ?_⟩
    intro hmem
    obtain ⟨-, -, hd⟩ := Finset.mem_filter.mp hmem
    exact absurd hd (lt_irrefl _)
  · intro r hr
    obtain ⟨h1, h2, -⟩ := Finset.mem_filter.mp hr
    exact Finset.mem_filter.mpr ⟨h1, h2⟩

/-- Shifting the dispatch sequence by its first dispatch. -/
theorem cursors_shift {runnable : Nat → Bool} {P c p : Nat}
    (hs : schedule runnable P c = some p) :
    ∀ k, cursors runnable P c (k + 1) = cursors runnable P p k := by
  intro k
  induction k with
  | zero =>
    show (match schedule runnable P (cursors runnable P c 0) with
          | some p' => p'
          | none => cursors runnable P c 0) = p
    rw [show cursors runnable P c 0 = c from rfl, hs]
  | succ k ihk =>
    show (match schedule runnable P (cursors runnable P c (k + 1)) with
          | some p' => p'
          | none => cursors runnable P c (k + 1))
        = cursors runnable P p (k + 1)
    rw [ihk]
    rfl

/-- The cursor stays inside the table. -/
theorem cursors_lt {runnable : Nat → Bool} {P c : Nat} (hc : c < P) :
    ∀ k, cursors runnable P c k < P := by
  intro k
  induction k with
  | zero => exact hc
  | succ k ihk =>
    show (match schedule runnable P (cursors runnable P c k) with
          | some p => p
          | none => cursors runnable P c k) < P
    cases hs : schedule runnable P (cursors runnable P c k) with
    | none => exact ihk
    | some p =>
      obtain ⟨j, -, -, hp, -, -⟩ := schedFind_some_spec runnable P P _ p hs
      rw [hp]
      exact Nat.mod_lt _ (by omega)

/-- Descending on the gap count: a runnable slot at gap `g` is dispatched
within `g + 1` dispatches. -/
theorem dispatch_reaches (runnable : Nat → Bool) (P : Nat) :
    ∀ (g c q : Nat), c < P → q < P → runnable q = true →
      gapCount runnable P c q = g →
      ∃ k, k ≤ g ∧ cursors runnable P c (k + 1) = q := by
  intro g
  induction g with
  | zero =>
    intro c q hc hq hrq hg
    obtain ⟨p, hs, hrp, hpP, hmin⟩ := schedule_argmin hc hq hrq
    have hpq : p = q := by
      by_contra hne
      have hstrict : cycDist P c p < cycDist P c q := by
        have hle := hmin q hq hrq
        rcases Nat.lt_or_ge (cycDist P c p) (cycDist P c q) with h | h
        · exact h
        · have heq : cycDist P c p = cycDist P c q := by omega
          exact absurd (cycDist_inj hc hpP hq heq) hne
      have hpin : p ∈ (Finset.range P).filter
          (fun r => runnable r = true ∧ cycDist P c r < cycDist P c q) :=
        Finset.mem_filter.mpr ⟨Finset.mem_range.mpr hpP, hrp, hstrict⟩
      have hpos : 0 < gapCount runnable P c q :=
        Finset.card_pos.mpr ⟨p, hpin⟩
      omega
    refine ⟨0, Nat.le_refl 0, ?_⟩
    show (match schedule runnable P (cursors runnable P c 0) with
          | some p' => p'
          | none => cursors runnable P c 0) = q
    rw [show cursors runnable P c 0 = c from rfl, hs]
    exact hpq
  | succ g ihg =>
    intro c q hc hq hrq hg
    obtain ⟨p, hs, hrp, hpP, hmin⟩ := schedule_argmin hc hq hrq
    by_cases hpq : p = q
    · refine ⟨0, by omega, ?_⟩
      show (match schedule runnable P (cursors runnable P c 0) with
            | some p' => p'
            | none => cursors runnable P c 0) = q
      rw [show cursors runnable P c 0 = c from rfl, hs]
      exact hpq
    · have hqp : q ≠ p := fun h4 => hpq h4.symm
      have hgap : gapCount runnable P p q = g := by
        have := gapCount_step hc hpP hq hrp hrq hqp hmin
        omega
      obtain ⟨k, hk, hck⟩ := ihg p q hpP hq hrq hgap
      refine ⟨k + 1, by omega, ?_⟩
      rw [cursors_shift hs (k + 1)]
      exact hck

/-- **C8.** Strict round-robin fairness: the scheduler's cursor advances
by one modulo the table capacity and dispatches the first runnable
process found, so — with the runnable set fixed (no process created or
exiting) — from any cursor position every runnable process is dispatched
within `N` consecutive dispatches, where `N` is the number of runnable
processes; and the cursor always stays inside the table, so the same
holds for every window of `N` consecutive dispatches. -/
theorem scheduler_round_robin_fair (runnable : Nat → Bool) (P c q : Nat)
    (hc : c < P) (hq : q < P) (hrq : runnable q = true) :
    (∀ k, cursors runnable P c k < P) ∧
    (∃ k, k < runnableCount runnable P ∧
      cursors runnable P c (k + 1) = q) := by
  refine ⟨cursors_lt hc, ?_⟩
  obtain ⟨k, hk, hck⟩ :=
    dispatch_reaches runnable P (gapCount runnable P c q) c q hc hq hrq rfl
  exact ⟨k, Nat.lt_of_le_of_lt hk (gapCount_card hq hrq), hck⟩

/-- Witness for `scheduler_round_robin_fair`: `P = 16` slots, slots 1 and
3 runnable, cursor at 0, watching slot 3. -/
theorem scheduler_round_robin_fair_witness :
    (∀ k, cursors (fun i => i == 1 || i == 3) 16 0 k < 16) ∧
    (∃ k, k < runnableCount (fun i => i == 1 || i == 3) 16 ∧
      cursors (fun i => i == 1 || i == 3) 16 0 (k + 1) = 3) :=
  scheduler_round_robin_fair (fun i => i == 1 || i == 3) 16 0 3
    (by decide) (by decide) (by decide)

set_option maxRecDepth 100000 in
/-- **C1 (refuting evaluation).** Loading the one-page writable program
`demoSegPlain` from an allocator state with five free frames consumes
three frames (page-table root, segment page, stack page), and tearing the
process down again leaves only **one** frame reachable from the free list
instead of the original five: every `kfree` in `cleanup_pagetable`
zero-fills the freed frame after linking it, orphaning the rest of the
list. -/
theorem load_exit_loses_frames :
    freeCount demoState = 5 ∧
    ((process_setup (fun _ => true) emptyPT [demoSegPlain] 0x100000
        demoState).bind
        (fun r => match r.1.pagetable with
                  | some (root, pt) => cleanup_pagetable root pt r.2
                  | none => none)).map freeCount
      = some 1 := by
  constructor
  · decide
  · decide

end Weensy
